import Mathlib

/-!
Verification development for the test-scenario recommendation and
duplicate-detection core of the DIGITAL-VEHICLE-TEST repository
(`src/ai/recommender.py`, `src/ai/similarity.py`,
`src/ai/duplicate_detector.py`).

Python floats are modelled as exact rationals (`ℚ`); values that flow
through a real square root (cosine similarity) live in `ℝ`.  A Python
float `NaN` (and the `ValueError` numpy raises on mismatched vector
lengths inside `np.dot`) is modelled by `Option.none`; a computation whose
Python counterpart would propagate `NaN` into observable control flow
(sorting, a never-terminating loop) returns `none` as well.  Python dicts
with optional keys are modelled as structures whose optional fields are
`Option`s (a `none` field models an absent key); `set(...)` becomes
`List.toFinset`.
-/

namespace DVT

/-- Dot product of two vectors, `np.dot` on equal-length 1-D arrays
(truncating `zipWith`; callers guard length equality separately). -/
def dot (u v : List ℚ) : ℚ :=
  (List.zipWith (fun a b => a * b) u v).sum

/-- Squared Euclidean norm `u ⬝ u`. -/
def normSq (u : List ℚ) : ℚ :=
  dot u u

/-- Model of `scipy.spatial.distance.cosine` composed with the repository's
`cosine_similarity` (similarity.py lines 13-29): the result is
`u ⬝ v / sqrt((u ⬝ u) * (v ⬝ v))`.  When either vector has zero norm the
Python computation divides 0.0 by 0.0 and yields `NaN`; when the lengths
differ `np.dot` raises `ValueError`.  Both are modelled as `none`. -/
noncomputable def cosine_similarity (u v : List ℚ) : Option ℝ :=
  if u.length = v.length then
    if normSq u * normSq v = 0 then none
    else some ((dot u v : ℝ) / Real.sqrt ((normSq u : ℝ) * (normSq v : ℝ)))
  else none

/-- Jaccard similarity of two finite sets (duplicate_detector.py lines
22-39): two empty sets are fully similar, otherwise `|A∩B| / |A∪B|`. -/
def jaccard_similarity (s1 s2 : Finset String) : ℚ :=
  if s1 = ∅ ∧ s2 = ∅ then 1
  else if 0 < (s1 ∪ s2).card then ((s1 ∩ s2).card : ℚ) / ((s1 ∪ s2).card : ℚ)
  else 0

/-- Lower-cased whitespace tokenisation `text.lower().split()` as a token
set (empty tokens dropped, mirroring Python's `str.split()`). -/
def tokenSet (text : String) : Finset String :=
  ((text.toLower.splitOn " ").filter (fun t => t ≠ "")).toFinset

/-- Token-level Jaccard similarity of two texts (duplicate_detector.py
lines 42-57). -/
def text_jaccard_similarity (t1 t2 : String) : ℚ :=
  jaccard_similarity (tokenSet t1) (tokenSet t2)

/-- A test scenario record: the dynamic dict used throughout
`recommender.py` and `duplicate_detector.py`.  Optional dict keys are
`Option` fields or fields with the `get` default of the source. -/
structure Scenario where
  scenario_id : String := ""
  test_name : String := ""
  test_type : Option String := none
  target_components : List String := []
  target_systems : List String := []
  applicable_platforms : List String := []
  regulatory_standards : List String := []
  embedding : Option (List ℚ) := none
  historical_results : List Bool := []
  complexity_score : Option ℤ := none
  risk_level : Option String := none
  estimated_duration_hours : Option ℚ := none
  estimated_cost_gbp : Option ℚ := none
deriving DecidableEq

/-- A query specification (`query_spec` dict of `TestRecommender.recommend`).
The `embedding` field models a precomputed query embedding supplied in the
dict; `recommend` never reads it. -/
structure QuerySpec where
  platform : String := ""
  systems : List String := []
  components : List String := []
  name : Option String := none
  description : Option String := none
  embedding : Option (List ℚ) := none
deriving DecidableEq

/-- The static platform → system → expected-standards table
(`TestRecommender.platform_rules`, recommender.py lines 55-69). -/
def platform_rules : List (String × List (String × List String)) :=
  [("EV",
     [("Battery", ["UNECE_R100", "ISO_6469", "SAE_J2929"]),
      ("Powertrain", ["ISO_8854", "SAE_J1772"]),
      ("ADAS", ["UNECE_R157", "ISO_26262"])]),
   ("HEV",
     [("Battery", ["UNECE_R100", "ISO_6469"]),
      ("Powertrain", ["WLTP_Class3b", "EPA_FTP75", "EURO_6E"])]),
   ("ICE",
     [("Powertrain", ["WLTP_Class3b", "EPA_FTP75", "EURO_6E"]),
      ("Chassis", ["UNECE_R13H", "FMVSS_135"])])]

/-- The ensemble weights dict of `TestRecommender.__init__`
(recommender.py lines 47-52). -/
def weights_semantic : ℚ := 4/10

/-- Graph-signal ensemble weight. -/
def weights_graph : ℚ := 3/10

/-- Rules-signal ensemble weight. -/
def weights_rules : ℚ := 2/10

/-- Historical-signal ensemble weight. -/
def weights_historical : ℚ := 1/10

/-- Rule 2 of `compute_rules_score` (recommender.py lines 179-187): for
each query system with an entry in the platform table, when at least one
expected standard is matched add `0.4 * (matched / expected)` and record
an explanation. -/
def regStep (cStandards : List String) (table : List (String × List String))
    (acc : ℚ × List String) (system : String) : ℚ × List String :=
  match table.find? (fun e => e.1 = system) with
  | none => acc
  | some (_, expected) =>
    let matched := expected.filter (fun s => s ∈ cStandards)
    if matched = [] then acc
    else (acc.1 + (4/10) * ((matched.length : ℚ) / (expected.length : ℚ)),
          acc.2 ++ ["Regulatory match for " ++ system ++ ": " ++
                    String.intercalate ", " matched])

/-- Rule 2 of `compute_rules_score` accumulated over the query systems in
order. -/
def regulatoryContribution (qPlatform : String) (qSystems : List String)
    (cStandards : List String) : ℚ × List String :=
  match platform_rules.find? (fun e => e.1 = qPlatform) with
  | none => (0, [])
  | some (_, table) =>
    qSystems.foldl (regStep cStandards table) (0, [])

/-- Rules-based score with fired-rule explanations
(`TestRecommender.compute_rules_score`, recommender.py lines 142-208).
The four weighted contributions accumulate and the sum is clipped to 1. -/
def compute_rules_score (q : QuerySpec) (c : Scenario) : ℚ × List String :=
  let s1 : ℚ × List String :=
    if q.platform ∈ c.applicable_platforms then
      ((3/10 : ℚ), ["Platform match: " ++ q.platform])
    else (0, [])
  let reg := regulatoryContribution q.platform q.systems c.regulatory_standards
  let s2 : ℚ × List String := (s1.1 + reg.1, s1.2 ++ reg.2)
  let overlap := (q.systems.toFinset ∩ c.target_systems.toFinset).card
  let s3 : ℚ × List String :=
    if q.systems ≠ [] ∧ c.target_systems ≠ [] ∧ 0 < overlap then
      (s2.1 + (2/10) * ((overlap : ℚ) / (q.systems.length : ℚ)),
       s2.2 ++ ["System overlap: " ++ toString overlap ++ "/" ++
                toString q.systems.length ++ " systems"])
    else s2
  let compOverlap := (q.components.toFinset ∩ c.target_components.toFinset).card
  let s4 : ℚ × List String :=
    if q.components ≠ [] ∧ 0 < compOverlap then
      (s3.1 + 1/10, s3.2 ++ ["Component coverage: " ++ toString compOverlap ++
                             " components"])
    else s3
  (min s4.1 1, s4.2)

/-- Historical-success score
(`TestRecommender.compute_historical_score`, recommender.py lines
210-243): neutral 0.5 with no history, otherwise pass rate blended with
0.5 by a confidence `min(executions/10, 1)`. -/
def compute_historical_score (c : Scenario) : ℚ :=
  if c.historical_results = [] then 1/2
  else
    let n : ℚ := (c.historical_results.length : ℚ)
    let pass_rate : ℚ := ((c.historical_results.count true : ℚ)) / n
    let confidence : ℚ := min (n / 10) 1
    pass_rate * confidence + (1/2) * (1 - confidence)

/-- Optional externally supplied graph metrics for one candidate (an entry
of the `graph_data` dict argument of `recommend`). -/
structure GraphData where
  shortest_path_length : Option ℚ := none
deriving DecidableEq

/-- One inline Jaccard sub-score of
`TestRecommender.compute_graph_proximity` (recommender.py lines 114-132):
present only when both lists are non-empty. -/
def jaccardScores (a b : List String) : List ℚ :=
  if a ≠ [] ∧ b ≠ [] then
    [if 0 < (a.toFinset ∪ b.toFinset).card then
      ((a.toFinset ∩ b.toFinset).card : ℚ) / ((a.toFinset ∪ b.toFinset).card : ℚ)
    else 0]
  else []

/-- The optional normalised shortest-path sub-score
(recommender.py lines 134-138). -/
def pathScores (gd : Option GraphData) : List ℚ :=
  match gd with
  | some g =>
    match g.shortest_path_length with
    | some l => [1 - min (l / 5) 1]
    | none => []
  | none => []

/-- Graph-proximity score
(`TestRecommender.compute_graph_proximity`, recommender.py lines 88-140):
the mean of the available sub-scores (component Jaccard, system Jaccard,
normalised shortest-path score), defaulting to 0.5 when none is
computable. -/
def compute_graph_proximity (qComponents cComponents qSystems cSystems :
    List String) (gd : Option GraphData) : ℚ :=
  let scores := jaccardScores qComponents cComponents ++
    jaccardScores qSystems cSystems ++ pathScores gd
  if scores = [] then 1/2 else scores.sum / (scores.length : ℚ)

/-- Per-signal score breakdown recorded in `explain['scores']`; the
`semantic` entry is only present when a semantic score was computed. -/
structure ScoreBreakdown where
  semantic : Option ℝ
  graph : ℚ
  rules : ℚ
  historical : ℚ

/-- One entry of the list returned by `TestRecommender.recommend`
(recommender.py lines 332-344). -/
structure Recommendation where
  scenario_id : String
  test_name : String
  test_type : Option String
  score : ℝ
  scores : ScoreBreakdown
  rules_fired : List String
  notes : List String
  complexity_score : Option ℤ
  risk_level : Option String
  estimated_duration_hours : Option ℚ
  estimated_cost_gbp : Option ℚ

/-- Query embedding construction at the head of `recommend`
(recommender.py lines 266-272): present only when an embedding pipeline
was supplied and the query spec has a description; the encoded text is
prefixed by the query name when present. -/
def queryEmbedding (pipeline : Option (String → List ℚ)) (q : QuerySpec) :
    Option (List ℚ) :=
  match pipeline, q.description with
  | some encode, some desc =>
    some (encode (match q.name with | some n => n ++ " " ++ desc | none => desc))
  | _, _ => none

/-- Lookup of the optional per-candidate graph metrics:
`graph_data.get(candidate.get('scenario_id')) if graph_data else None`
(recommender.py line 301). -/
def gdLookup (gd : Option (String → Option GraphData)) (id : String) :
    Option GraphData :=
  match gd with
  | some f => f id
  | none => none

open Classical in
/-- The recommendation record assembled for one candidate inside the
`recommend` loop (recommender.py lines 277-344), given the semantic score
pair (`explain` entry, value used in the final score). -/
noncomputable def baseRecommendation (sp : Option ℝ × ℝ) (q : QuerySpec)
    (gd : Option (String → Option GraphData)) (c : Scenario) :
    Recommendation :=
  let semantic : ℝ := sp.2
  let graph : ℚ := compute_graph_proximity q.components c.target_components
    q.systems c.target_systems (gdLookup gd c.scenario_id)
  let rules := compute_rules_score q c
  let hist := compute_historical_score c
  let final : ℝ := (weights_semantic : ℝ) * semantic +
    (weights_graph : ℝ) * (graph : ℝ) + (weights_rules : ℝ) * (rules.1 : ℝ) +
    (weights_historical : ℝ) * (hist : ℝ)
  { scenario_id := c.scenario_id
    test_name := c.test_name
    test_type := c.test_type
    score := final
    scores := { semantic := sp.1, graph := graph, rules := rules.1,
                historical := hist }
    rules_fired := rules.2
    notes :=
      (if (8/10 : ℝ) < semantic then ["High semantic similarity"] else []) ++
      (if (7/10 : ℚ) < graph then ["Strong graph connectivity"] else []) ++
      (if (7/10 : ℚ) < rules.1 then ["Matches multiple rules"] else []) ++
      (if (8/10 : ℚ) < hist then ["High historical success rate"] else [])
    complexity_score := c.complexity_score
    risk_level := c.risk_level
    estimated_duration_hours := c.estimated_duration_hours
    estimated_cost_gbp := c.estimated_cost_gbp }

/-- Scoring of one candidate inside the `recommend` loop (recommender.py
lines 277-344).  Returns `none` when the semantic cosine similarity is
undefined (Python `NaN` / shape error), since the resulting float order is
not modelled. -/
noncomputable def scoreCandidate (qe : Option (List ℚ)) (q : QuerySpec)
    (gd : Option (String → Option GraphData)) (c : Scenario) :
    Option Recommendation :=
  let semanticPair : Option (Option ℝ × ℝ) :=
    match qe, c.embedding with
    | some qv, some cv => (cosine_similarity qv cv).map (fun s => (some s, s))
    | _, _ => some (none, 0)
  semanticPair.map (fun sp => baseRecommendation sp q gd c)

/-- Sequencing of per-candidate `Option` results: `some` only when every
candidate scored without an undefined value. -/
def seqOpt : List (Option α) → Option (List α)
  | [] => some []
  | none :: _ => none
  | some a :: xs =>
    match seqOpt xs with
    | some l => some (a :: l)
    | none => none

/-- Python's `list.sort(key=lambda x: x['score'], reverse=True)` is a
stable descending sort; equivalently insertion sort with the total
preorder `b.score ≤ a.score`. -/
noncomputable def sortRecs (l : List Recommendation) : List Recommendation :=
  List.insertionSort (fun a b => b.score ≤ a.score) l

/-- Model of `TestRecommender.recommend` (recommender.py lines 245-351):
score every candidate, sort descending by final score (stable), return the
first `top_k`. -/
noncomputable def recommend (pipeline : Option (String → List ℚ))
    (q : QuerySpec) (candidates : List Scenario) (top_k : ℕ)
    (gd : Option (String → Option GraphData)) :
    Option (List Recommendation) :=
  (seqOpt (candidates.map (scoreCandidate (queryEmbedding pipeline q) q gd))).map
    (fun recs => (sortRecs recs).take top_k)

/-- Similarity breakdown returned by
`DuplicateDetector._compute_detailed_similarity`. -/
structure SimilarityBreakdown where
  name : ℚ
  components : ℚ
  systems : ℚ
  test_type : ℚ
  platforms : ℚ
  standards : ℚ
  overall : ℚ
deriving DecidableEq

/-- Detailed weighted similarity between two scenarios
(duplicate_detector.py lines 265-320). -/
def compute_detailed_similarity (s1 s2 : Scenario) : SimilarityBreakdown :=
  let nm := text_jaccard_similarity s1.test_name s2.test_name
  let comp := jaccard_similarity s1.target_components.toFinset
    s2.target_components.toFinset
  let sys := jaccard_similarity s1.target_systems.toFinset
    s2.target_systems.toFinset
  let tt : ℚ := if s1.test_type = s2.test_type then 1 else 0
  let plat := jaccard_similarity s1.applicable_platforms.toFinset
    s2.applicable_platforms.toFinset
  let std := jaccard_similarity s1.regulatory_standards.toFinset
    s2.regulatory_standards.toFinset
  { name := nm, components := comp, systems := sys, test_type := tt,
    platforms := plat, standards := std,
    overall := nm * (15/100) + comp * (25/100) + sys * (20/100) +
      tt * (15/100) + plat * (10/100) + std * (15/100) }

/-- Savings estimate of `DuplicateDetector._estimate_savings`
(duplicate_detector.py lines 322-362): fixed placeholder averages times a
0.8 reduction factor. -/
structure Savings where
  time_saved_hours : ℚ
  cost_saved_gbp : ℚ
  tests_eliminated : ℕ
  reduction_percent : ℚ
deriving DecidableEq

/-- One confirmed duplicate entry inside a duplicate group
(duplicate_detector.py lines 246-252). -/
structure DupEntry where
  scenario_id : String
  test_name : String
  similarity_to_canonical : ℚ
  similarity_breakdown : SimilarityBreakdown
  recommendation : String
deriving DecidableEq

/-- One cluster of the detection result (duplicate_detector.py lines
145-153). -/
structure Cluster where
  cluster_id : ℤ
  size : ℕ
  scenarios : List Scenario
  canonical : Scenario
deriving DecidableEq

/-- One duplicate group (duplicate_detector.py lines 254-261). -/
structure DupGroup where
  cluster_id : ℤ
  canonical_id : String
  canonical_name : String
  duplicates : List DupEntry
  potential_savings : Savings
deriving DecidableEq

/-- Composite quality score used by `_select_canonical`
(duplicate_detector.py lines 192-205):
`0.4·executionCount + 0.3·passRate + 0.3·componentCount`, pass rate
defaulting to 0.5 with no history. -/
def qualityScore (s : Scenario) : ℚ :=
  let execution_count : ℚ := (s.historical_results.length : ℚ)
  let pass_rate : ℚ :=
    if s.historical_results = [] then 1/2
    else (s.historical_results.count true : ℚ) / (s.historical_results.length : ℚ)
  let component_count : ℚ := (s.target_components.length : ℚ)
  execution_count * (4/10) + pass_rate * (3/10) + component_count * (3/10)

/-- The scan of `_select_canonical`: keep the current best, replace it
only on a strictly larger quality score. -/
def selectCanonicalAux : Scenario → ℚ → List Scenario → Scenario
  | best, _, [] => best
  | best, bestScore, s :: rest =>
    if bestScore < qualityScore s then selectCanonicalAux s (qualityScore s) rest
    else selectCanonicalAux best bestScore rest

/-- Model of `DuplicateDetector._select_canonical` (duplicate_detector.py
lines 171-211); the Python `{}` returned for an empty cluster is the
all-defaults record. -/
def select_canonical : List Scenario → Scenario
  | [] => {}
  | s :: rest => selectCanonicalAux s (-1) (s :: rest)

/-- Construction of one duplicate entry (duplicate_detector.py lines
246-252), including the `consolidate`/`review` action label. -/
def mkDupEntry (canonical s : Scenario) : DupEntry :=
  let sim := compute_detailed_similarity canonical s
  { scenario_id := s.scenario_id
    test_name := s.test_name
    similarity_to_canonical := sim.overall
    similarity_breakdown := sim
    recommendation := if (95/100 : ℚ) < sim.overall then "consolidate" else "review" }

/-- The inner loop of `_identify_duplicates_in_clusters`: skip the member
with the canonical's id, keep members whose overall similarity reaches the
threshold. -/
def clusterDupLoop (θ : ℚ) (canonical : Scenario) : List Scenario → List DupEntry
  | [] => []
  | s :: rest =>
    if s.scenario_id = canonical.scenario_id then clusterDupLoop θ canonical rest
    else if θ ≤ (compute_detailed_similarity canonical s).overall then
      mkDupEntry canonical s :: clusterDupLoop θ canonical rest
    else clusterDupLoop θ canonical rest

/-- Duplicate entries contributed by one cluster (clusters of fewer than
two members are skipped, duplicate_detector.py lines 232-252). -/
def cluster_duplicate_entries (θ : ℚ) (c : Cluster) : List DupEntry :=
  if c.scenarios.length < 2 then []
  else clusterDupLoop θ c.canonical c.scenarios

/-- Savings estimate for a duplicate group
(`DuplicateDetector._estimate_savings`); the canonical argument is read
but unused in the returned record, as in the source. -/
def estimate_savings (_canonical : Scenario) (dups : List DupEntry) : Savings :=
  let n : ℕ := dups.length
  { time_saved_hours := ((n : ℚ) * 10) * (8/10)
    cost_saved_gbp := ((n : ℚ) * 5000) * (8/10)
    tests_eliminated := n
    reduction_percent := ((n : ℚ) / ((n : ℚ) + 1)) * 100 }

/-- Model of `DuplicateDetector._identify_duplicates_in_clusters`
(duplicate_detector.py lines 213-263): clusters contributing no entry are
dropped. -/
def identify_duplicates_in_clusters (θ : ℚ) (clusters : List Cluster) :
    List DupGroup :=
  clusters.filterMap (fun c =>
    let entries := cluster_duplicate_entries θ c
    if entries = [] then none
    else some { cluster_id := c.cluster_id
                canonical_id := c.canonical.scenario_id
                canonical_name := c.canonical.test_name
                duplicates := entries
                potential_savings := estimate_savings c.canonical entries })

/-- Error kind for a batch with inconsistent embedding dimensions (the
`ValueError` numpy raises at `np.array(embeddings)` on an inhomogeneous
shape; the spec's `DimensionMismatch`). -/
inductive DetectError
  | dimensionMismatch
deriving DecidableEq

/-- Result shape of `detect_duplicates_by_embedding`.  `Option` fields
model dict keys that are present only on the full (non-early) return path
(duplicate_detector.py lines 101-102, 118-120 versus 163-169). -/
structure DetectResult where
  clusters : List Cluster
  duplicates : List DupGroup
  noise_points : Option (List Scenario)
  n_clusters : Option ℕ
  n_noise : Option ℕ
deriving DecidableEq

/-- Constructor arguments of `DuplicateDetector.__init__`
(duplicate_detector.py lines 65-84). -/
structure DetectorConfig where
  min_cluster_size : ℕ := 2
  min_samples : ℕ := 1
  similarity_threshold : ℚ := 85/100
deriving DecidableEq

/-- Uniform-row-length check performed implicitly by
`np.array(embeddings)`. -/
def sameLength : List (List ℚ) → Bool
  | [] => true
  | e :: rest => rest.all (fun x => x.length = e.length)

/-- Distinct cluster labels in order of first occurrence (Python dict
insertion order of the `defaultdict`). -/
def firstLabels (ls : List ℤ) : List ℤ :=
  ls.foldl (fun acc x => if x ∈ acc then acc else acc ++ [x]) []

/-- The early-return value `{'clusters': [], 'duplicates': []}` of
`detect_duplicates_by_embedding`: note the `noise_points` key is absent. -/
def emptyDetectResult : DetectResult :=
  { clusters := [], duplicates := [], noise_points := none,
    n_clusters := none, n_noise := none }

/-- The scenarios of a batch that carry an embedding (the
`valid_scenarios` list, duplicate_detector.py lines 107-116). -/
def validOf (scenarios : List Scenario) : List Scenario :=
  scenarios.filter (fun s => s.embedding.isSome)

/-- Embedded scenarios paired with their clusterer labels (the
`enumerate(cluster_labels)` loop walks index-aligned lists). -/
def pairsOf (scenarios : List Scenario) (labels : List ℤ) :
    List (Scenario × ℤ) :=
  (validOf scenarios).zip labels

/-- The members of the cluster carrying label `lab`, in index order
(`clusters_dict[label].append(...)`, duplicate_detector.py lines
135-142). -/
def membersOf (scenarios : List Scenario) (labels : List ℤ) (lab : ℤ) :
    List Scenario :=
  ((pairsOf scenarios labels).filter (fun p => p.2 = lab)).map (fun p => p.1)

/-- The cluster record built for one label (duplicate_detector.py lines
145-153). -/
def clusterOf (scenarios : List Scenario) (labels : List ℤ) (lab : ℤ) :
    Cluster :=
  { cluster_id := lab, size := (membersOf scenarios labels lab).length,
    scenarios := membersOf scenarios labels lab,
    canonical := select_canonical (membersOf scenarios labels lab) }

/-- All cluster records, one per distinct non-noise label in first-seen
order, then stably sorted by size descending (duplicate_detector.py lines
144-156). -/
def clustersOf (scenarios : List Scenario) (labels : List ℤ) : List Cluster :=
  List.insertionSort (fun a b : Cluster => b.size ≤ a.size)
    ((firstLabels (((pairsOf scenarios labels).filter
        (fun p => p.2 ≠ -1)).map (fun p => p.2))).map
      (clusterOf scenarios labels))

/-- The noise points: embedded scenarios labelled −1. -/
def noiseOf (scenarios : List Scenario) (labels : List ℤ) : List Scenario :=
  (((pairsOf scenarios labels).filter (fun p => p.2 = -1)).map (fun p => p.1))

/-- Model of `DuplicateDetector.detect_duplicates_by_embedding`
(duplicate_detector.py lines 86-169).  The HDBSCAN clusterer is an
external capability; its per-point labels (−1 marking noise) are passed in
as `labels`, one per scenario that carries an embedding. -/
def detect_duplicates_by_embedding (cfg : DetectorConfig)
    (scenarios : List Scenario) (labels : List ℤ) :
    Except DetectError DetectResult :=
  if scenarios = [] then .ok emptyDetectResult
  else
    let embs := (validOf scenarios).filterMap (fun s => s.embedding)
    if embs.length < cfg.min_cluster_size then .ok emptyDetectResult
    else if ¬ sameLength embs then .error .dimensionMismatch
    else
      let clusters := clustersOf scenarios labels
      let noise := noiseOf scenarios labels
      let dups := identify_duplicates_in_clusters cfg.similarity_threshold clusters
      .ok { clusters := clusters, duplicates := dups, noise_points := some noise,
            n_clusters := some clusters.length, n_noise := some noise.length }

/-- One entry of the `find_similar_pairs` result (duplicate_detector.py
lines 386-393); it carries no action label. -/
structure SimilarPair where
  scenario1_id : String
  scenario1_name : String
  scenario2_id : String
  scenario2_name : String
  similarity : ℚ
  similarity_breakdown : SimilarityBreakdown
deriving DecidableEq

/-- Construction of one similar-pair record (duplicate_detector.py lines
386-393). -/
def mkSimilarPair (s1 s2 : Scenario) : SimilarPair :=
  let sim := compute_detailed_similarity s1 s2
  { scenario1_id := s1.scenario_id, scenario1_name := s1.test_name,
    scenario2_id := s2.scenario_id, scenario2_name := s2.test_name,
    similarity := sim.overall, similarity_breakdown := sim }

/-- Pairs of one scenario against all later ones that reach the threshold
(the inner loop of `find_similar_pairs`). -/
def collectPairsFrom (θ : ℚ) (s1 : Scenario) (rest : List Scenario) :
    List SimilarPair :=
  rest.filterMap (fun s2 =>
    if θ ≤ (compute_detailed_similarity s1 s2).overall then
      some (mkSimilarPair s1 s2)
    else none)

/-- The all-pairs double loop of `find_similar_pairs`. -/
def collectPairs (θ : ℚ) : List Scenario → List SimilarPair
  | [] => []
  | s :: rest => collectPairsFrom θ s rest ++ collectPairs θ rest

/-- Model of `DuplicateDetector.find_similar_pairs` (duplicate_detector.py
lines 364-398): every unordered pair at or above the threshold, sorted
descending by overall similarity (stable). -/
def find_similar_pairs (scenarios : List Scenario) (θ : ℚ) :
    List SimilarPair :=
  List.insertionSort (fun a b : SimilarPair => b.similarity ≤ a.similarity)
    (collectPairs θ scenarios)

open Classical in
/-- Python's `max` on a float list: a left fold keeping the accumulator
unless the next element compares strictly greater (`NaN`, modelled `none`,
never compares greater and is kept only when it is the running value). -/
noncomputable def maxPy : List (Option ℝ) → Option ℝ
  | [] => none
  | x :: xs =>
    xs.foldl (fun a b =>
      match b, a with
      | some b', some a' => if a' < b' then some b' else a
      | _, _ => a) x

/-- The relevance score `candidates[idx][1]` read inside the selection
loop (0 as an out-of-range junk value, never hit by in-range indices). -/
def relAt (cands : List (α × ℝ)) (i : ℕ) : ℝ :=
  ((cands.get? i).map Prod.snd).getD 0

open Classical in
/-- Candidate score inside the `diversity_reranking` selection loop
(similarity.py lines 250-263): `λ·relevance + (1−λ)·(1 − max similarity to
selected)`; `none` models a `NaN` score. -/
noncomputable def mmrScore (cands : List (α × ℝ)) (embs : List (List ℚ))
    (lam : ℝ) (selIdx : List ℕ) (i : ℕ) : Option ℝ :=
  let rel : ℝ := relAt cands i
  let diversity : Option ℝ :=
    if selIdx = [] then some 1
    else (maxPy (selIdx.map (fun j =>
      cosine_similarity (embs.getD i []) (embs.getD j [])))).map (fun m => 1 - m)
  diversity.map (fun d => lam * rel + (1 - lam) * d)

open Classical in
/-- The arg-max scan of the selection loop (similarity.py lines 247-267):
strictly greater scores displace the best; a `NaN` score never does. -/
noncomputable def mmrBest (cands : List (α × ℝ)) (embs : List (List ℚ))
    (lam : ℝ) (selIdx : List ℕ) :
    List ℕ → Option (ℕ × ℝ) → Option (ℕ × ℝ)
  | [], best => best
  | i :: rest, best =>
    match mmrScore cands embs lam selIdx i with
    | none => mmrBest cands embs lam selIdx rest best
    | some s =>
      match best with
      | none => mmrBest cands embs lam selIdx rest (some (i, s))
      | some (bi, bs) =>
        if bs < s then mmrBest cands embs lam selIdx rest (some (i, s))
        else mmrBest cands embs lam selIdx rest (some (bi, bs))

/-- The `while` loop of `diversity_reranking` (similarity.py lines
246-272).  When no candidate has a defined score the Python loop never
terminates (nothing is selected and nothing is removed); that divergence
is `none`.  The fuel is an upper bound on iterations, never reached. -/
noncomputable def mmrLoop (cands : List (α × ℝ)) (embs : List (List ℚ))
    (lam : ℝ) (k : ℕ) :
    ℕ → List (α × ℝ) → List ℕ → List ℕ → Option (List (α × ℝ))
  | 0, selected, _, remaining =>
    if selected.length < k ∧ remaining ≠ [] then none else some selected
  | fuel + 1, selected, selIdx, remaining =>
    if selected.length < k ∧ remaining ≠ [] then
      match mmrBest cands embs lam selIdx remaining none with
      | none => none
      | some (b, _) =>
        match cands.get? b with
        | some cb =>
          mmrLoop cands embs lam k fuel (selected ++ [cb]) (selIdx ++ [b])
            (remaining.erase b)
        | none => none
    else some selected

/-- Model of `diversity_reranking` (similarity.py lines 215-274): identity
passthrough when `len(candidates) ≤ k`, otherwise greedy
maximal-marginal-relevance selection starting from the first candidate. -/
noncomputable def diversity_reranking (cands : List (α × ℝ))
    (embs : List (List ℚ)) (lam : ℝ) (k : ℕ) : Option (List (α × ℝ)) :=
  if cands.length ≤ k then some (cands.take k)
  else
    match cands with
    | [] => some []
    | c0 :: _ =>
      mmrLoop cands embs lam k cands.length [c0] [0]
        (List.range' 1 (cands.length - 1))

/-! ### Concrete inputs used by counterexamples and witnesses -/

/-- The query of the spec's concrete scenario 3: platform `EV`, systems
`[Battery]`, no components. -/
def c2Query : QuerySpec :=
  { platform := "EV", systems := ["Battery"], components := [] }

/-- The candidate of the spec's concrete scenario 3. -/
def c2Candidate : Scenario :=
  { applicable_platforms := ["EV"], target_systems := ["Battery", "Thermal"],
    regulatory_standards := ["UNECE_R100"] }

/-- First member of the witness cluster for duplicate flagging. -/
def w4a : Scenario :=
  { scenario_id := "a", test_name := "Battery Thermal Test",
    test_type := some "performance", target_systems := ["Battery"] }

/-- Second member of the witness cluster for duplicate flagging. -/
def w4b : Scenario :=
  { scenario_id := "b", test_name := "Battery Thermal Check",
    test_type := some "performance", target_systems := ["Battery"] }

/-- A two-member cluster used to instantiate the duplicate-flagging
characterisation. -/
def c4Cluster : Cluster :=
  { cluster_id := 0, size := 2, scenarios := [w4a, w4b], canonical := w4a }

/-- A query spec with a description, so that a supplied embedding pipeline
is consulted. -/
def c1Query : QuerySpec := { description := some "battery query" }

/-- A candidate whose embedding points opposite to the query embedding. -/
def c1Candidate : Scenario := { scenario_id := "c1", embedding := some [-1] }

/-- An embedding pipeline encoding every text as the vector `[1]`. -/
def c1Pipeline : Option (String → List ℚ) := some (fun _ => [1])

/-- A scenario carrying a one-dimensional embedding. -/
def dimScenario1 : Scenario := { scenario_id := "s1", embedding := some [0] }

/-- A scenario carrying a two-dimensional embedding. -/
def dimScenario2 : Scenario := { scenario_id := "s2", embedding := some [0, 0] }

/-! ### Helper lemmas -/

theorem dot_nil_left (v : List ℚ) : dot [] v = 0 := rfl

theorem dot_cons_cons (a b : ℚ) (u v : List ℚ) :
    dot (a :: u) (b :: v) = a * b + dot u v := by
  simp [dot, List.zipWith]

theorem normSq_nil : normSq [] = 0 := rfl

theorem normSq_cons (a : ℚ) (u : List ℚ) :
    normSq (a :: u) = a * a + normSq u := by
  simp [normSq, dot_cons_cons]

theorem normSq_nonneg (u : List ℚ) : 0 ≤ normSq u := by
  induction u with
  | nil => simp [normSq_nil]
  | cons a u ih =>
    rw [normSq_cons]
    have := mul_self_nonneg a
    linarith

theorem length_filterMap_embedding (l : List Scenario) :
    ((validOf l).filterMap (fun s => s.embedding)).length = (validOf l).length := by
  unfold validOf
  induction l with
  | nil => rfl
  | cons s l ih =>
    by_cases h : s.embedding.isSome
    · obtain ⟨e, he⟩ := Option.isSome_iff_exists.mp h
      simp [List.filter_cons, h, List.filterMap_cons, he, ih]
    · simp [List.filter_cons, h, ih]

theorem clusterDupLoop_eq (θ : ℚ) (can : Scenario) (l : List Scenario) :
    clusterDupLoop θ can l =
      (l.filter (fun s => s.scenario_id ≠ can.scenario_id ∧
        θ ≤ (compute_detailed_similarity can s).overall)).map (mkDupEntry can) := by
  induction l with
  | nil => rfl
  | cons s rest ih =>
    by_cases h1 : s.scenario_id = can.scenario_id
    · simp [clusterDupLoop, h1, List.filter_cons, ih]
    · by_cases h2 : θ ≤ (compute_detailed_similarity can s).overall
      · simp [clusterDupLoop, h1, h2, List.filter_cons, ih]
      · simp [clusterDupLoop, h1, h2, List.filter_cons, ih]

theorem mkDupEntry_label (can s : Scenario) :
    ((mkDupEntry can s).recommendation = "consolidate" ↔
      (95 : ℚ)/100 < (mkDupEntry can s).similarity_to_canonical) ∧
    ((mkDupEntry can s).recommendation = "review" ↔
      (mkDupEntry can s).similarity_to_canonical ≤ 95/100) := by
  have hs : ("consolidate" : String) ≠ "review" := by decide
  have hs2 : ("review" : String) ≠ "consolidate" := by decide
  by_cases h : (95 : ℚ)/100 < (compute_detailed_similarity can s).overall
  · constructor
    · simp [mkDupEntry, h]
    · simp [mkDupEntry, h, hs, not_le.mpr h]
  · constructor
    · simp [mkDupEntry, h, hs2]
    · simp [mkDupEntry, h, not_lt.mp h]

theorem mem_cluster_duplicate_entries {θ : ℚ} {c : Cluster} {e : DupEntry}
    (he : e ∈ cluster_duplicate_entries θ c) :
    ∃ s ∈ c.scenarios, s.scenario_id ≠ c.canonical.scenario_id ∧
      θ ≤ (compute_detailed_similarity c.canonical s).overall ∧
      e = mkDupEntry c.canonical s := by
  unfold cluster_duplicate_entries at he
  split at he
  · simp at he
  · rw [clusterDupLoop_eq] at he
    obtain ⟨s, hsmem, hse⟩ := List.mem_map.mp he
    obtain ⟨hmem, hcond⟩ := List.mem_filter.mp hsmem
    obtain ⟨h1, h2⟩ := of_decide_eq_true hcond
    exact ⟨s, hmem, h1, h2, hse.symm⟩

theorem mem_collectPairs (θ : ℚ) (l : List Scenario) (p : SimilarPair) :
    p ∈ collectPairs θ l ↔ ∃ s1 s2, List.Sublist [s1, s2] l ∧
      θ ≤ (compute_detailed_similarity s1 s2).overall ∧ p = mkSimilarPair s1 s2 := by
  induction l with
  | nil =>
    simp only [collectPairs, List.not_mem_nil, false_iff]
    rintro ⟨s1, s2, hsub, -, -⟩
    exact absurd (hsub.length_le) (by simp)
  | cons s rest ih =>
    simp only [collectPairs, List.mem_append]
    constructor
    · rintro (hfrom | hrest)
      · obtain ⟨s2, hs2, hsome⟩ := List.mem_filterMap.mp hfrom
        by_cases hθ : θ ≤ (compute_detailed_similarity s s2).overall
        · rw [if_pos hθ, Option.some_inj] at hsome
          exact ⟨s, s2, (List.singleton_sublist.mpr hs2).cons₂ s, hθ, hsome.symm⟩
        · rw [if_neg hθ] at hsome
          exact absurd hsome (by simp)
      · obtain ⟨s1, s2, hsub, hθ, hp⟩ := ih.mp hrest
        exact ⟨s1, s2, hsub.cons s, hθ, hp⟩
    · rintro ⟨s1, s2, hsub, hθ, hp⟩
      cases hsub with
      | cons _ h => exact Or.inr (ih.mpr ⟨s1, s2, h, hθ, hp⟩)
      | cons₂ _ h =>
        refine Or.inl (List.mem_filterMap.mpr ⟨s2, List.singleton_sublist.mp h, ?_⟩)
        rw [if_pos hθ, hp]

theorem qualityScore_nonneg (s : Scenario) : 0 ≤ qualityScore s := by
  by_cases h : s.historical_results = [] <;>
    · simp only [qualityScore, h, if_true, if_false]
      positivity

theorem selectCanonicalAux_spec (l : List Scenario) : ∀ best : Scenario,
    (selectCanonicalAux best (qualityScore best) l = best ∧
      ∀ s ∈ l, qualityScore s ≤ qualityScore best) ∨
    (∃ i : Fin l.length, selectCanonicalAux best (qualityScore best) l = l.get i ∧
      qualityScore best < qualityScore (l.get i) ∧
      (∀ s ∈ l, qualityScore s ≤ qualityScore (l.get i)) ∧
      (∀ j : Fin l.length, (j : ℕ) < (i : ℕ) →
        qualityScore (l.get j) < qualityScore (l.get i))) := by
  induction l with
  | nil => intro best; exact Or.inl ⟨rfl, by simp⟩
  | cons s rest ih =>
    intro best
    by_cases h : qualityScore best < qualityScore s
    · rw [show selectCanonicalAux best (qualityScore best) (s :: rest) =
          selectCanonicalAux s (qualityScore s) rest by
        simp [selectCanonicalAux, h]]
      rcases ih s with ⟨he, hall⟩ | ⟨i, he, hlt, hall, hfirst⟩
      · refine Or.inr ⟨⟨0, by simp⟩, he, h, ?_, ?_⟩
        · intro x hx
          rcases List.mem_cons.mp hx with rfl | hx
          · exact le_refl _
          · exact hall x hx
        · intro j hj
          simp at hj
      · refine Or.inr ⟨i.succ, he, h.trans hlt, ?_, ?_⟩
        · intro x hx
          rcases List.mem_cons.mp hx with rfl | hx
          · exact le_of_lt hlt
          · exact hall x hx
        · intro j hj
          rcases Fin.eq_zero_or_eq_succ j with rfl | ⟨j', rfl⟩
          · exact hlt
          · exact hfirst j' (by simpa using hj)
    · rw [show selectCanonicalAux best (qualityScore best) (s :: rest) =
          selectCanonicalAux best (qualityScore best) rest by
        simp [selectCanonicalAux, h]]
      rcases ih best with ⟨he, hall⟩ | ⟨i, he, hlt, hall, hfirst⟩
      · refine Or.inl ⟨he, ?_⟩
        intro x hx
        rcases List.mem_cons.mp hx with rfl | hx
        · exact not_lt.mp h
        · exact hall x hx
      · refine Or.inr ⟨i.succ, he, hlt, ?_, ?_⟩
        · intro x hx
          rcases List.mem_cons.mp hx with rfl | hx
          · exact (not_lt.mp h).trans (le_of_lt hlt)
          · exact hall x hx
        · intro j hj
          rcases Fin.eq_zero_or_eq_succ j with rfl | ⟨j', rfl⟩
          · exact lt_of_le_of_lt (not_lt.mp h) hlt
          · exact hfirst j' (by simpa using hj)

theorem select_canonical_spec (s : Scenario) (rest : List Scenario) :
    ∃ i : Fin (s :: rest).length,
      select_canonical (s :: rest) = (s :: rest).get i ∧
      (∀ x ∈ s :: rest, qualityScore x ≤ qualityScore ((s :: rest).get i)) ∧
      (∀ j : Fin (s :: rest).length, (j : ℕ) < (i : ℕ) →
        qualityScore ((s :: rest).get j) < qualityScore ((s :: rest).get i)) := by
  have hstep : select_canonical (s :: rest) =
      selectCanonicalAux s (qualityScore s) rest := by
    have h0 : (-1 : ℚ) < qualityScore s :=
      lt_of_lt_of_le (by norm_num) (qualityScore_nonneg s)
    simp [select_canonical, selectCanonicalAux, h0]
  rcases selectCanonicalAux_spec rest s with ⟨he, hall⟩ | ⟨i, he, hlt, hall, hfirst⟩
  · refine ⟨⟨0, by simp⟩, by rw [hstep, he]; rfl, ?_, ?_⟩
    · intro x hx
      rcases List.mem_cons.mp hx with rfl | hx
      · exact le_refl _
      · exact hall x hx
    · intro j hj
      simp at hj
  · refine ⟨i.succ, by rw [hstep, he]; rfl, ?_, ?_⟩
    · intro x hx
      rcases List.mem_cons.mp hx with rfl | hx
      · exact le_of_lt hlt
      · exact hall x hx
    · intro j hj
      rcases Fin.eq_zero_or_eq_succ j with rfl | ⟨j', rfl⟩
      · exact hlt
      · exact hfirst j' (by simpa using hj)

theorem mem_foldl_insert {x : ℤ} : ∀ (l acc : List ℤ),
    x ∈ l.foldl (fun acc y => if y ∈ acc then acc else acc ++ [y]) acc →
    x ∈ acc ∨ x ∈ l := by
  intro l
  induction l with
  | nil => intro acc h; exact Or.inl h
  | cons a l ih =>
    intro acc h
    rcases ih _ h with h2 | h2
    · simp only at h2
      by_cases ha : a ∈ acc
      · rw [if_pos ha] at h2
        exact Or.inl h2
      · rw [if_neg ha] at h2
        rcases List.mem_append.mp h2 with h3 | h3
        · exact Or.inl h3
        · simp at h3
          simp [h3]
    · simp [h2]

theorem mem_firstLabels {x : ℤ} {l : List ℤ} (h : x ∈ firstLabels l) : x ∈ l := by
  rcases mem_foldl_insert l [] h with h2 | h2
  · simp at h2
  · exact h2

theorem mem_identify_duplicates {θ : ℚ} {clusters : List Cluster} {g : DupGroup}
    (hg : g ∈ identify_duplicates_in_clusters θ clusters) :
    ∃ c ∈ clusters, g.cluster_id = c.cluster_id ∧
      g.duplicates = cluster_duplicate_entries θ c := by
  obtain ⟨c, hc, hsome⟩ := List.mem_filterMap.mp hg
  by_cases hne : cluster_duplicate_entries θ c = []
  · rw [if_pos hne] at hsome
    exact absurd hsome (by simp)
  · rw [if_neg hne, Option.some_inj] at hsome
    exact ⟨c, hc, by rw [← hsome], by rw [← hsome]⟩

theorem mem_clustersOf {scenarios : List Scenario} {labels : List ℤ} {c : Cluster}
    (hc : c ∈ clustersOf scenarios labels) :
    ∃ lab, lab ≠ -1 ∧ c = clusterOf scenarios labels lab ∧
      membersOf scenarios labels lab ≠ [] := by
  unfold clustersOf at hc
  rw [List.mem_insertionSort] at hc
  obtain ⟨lab, hlab, rfl⟩ := List.mem_map.mp hc
  obtain ⟨q, hq, hq2⟩ := List.mem_map.mp (mem_firstLabels hlab)
  obtain ⟨hqmem, hqne⟩ := List.mem_filter.mp hq
  refine ⟨lab, ?_, rfl, ?_⟩
  · have := of_decide_eq_true hqne
    rwa [hq2] at this
  · have hm : q.1 ∈ membersOf scenarios labels lab :=
      List.mem_map_of_mem _ (List.mem_filter.mpr ⟨hqmem, by simp [hq2]⟩)
    exact List.ne_nil_of_mem hm

theorem mem_membersOf {scenarios : List Scenario} {labels : List ℤ} {lab : ℤ}
    {s : Scenario} (hs : s ∈ membersOf scenarios labels lab) :
    ∃ p ∈ pairsOf scenarios labels, p.2 = lab ∧ p.1 = s := by
  obtain ⟨p, hp, hp2⟩ := List.mem_map.mp hs
  obtain ⟨hpm, hpl⟩ := List.mem_filter.mp hp
  exact ⟨p, hpm, of_decide_eq_true hpl, hp2⟩

theorem regStep_le (cs : List String) (table : List (String × List String))
    (acc : ℚ × List String) (system : String) :
    acc.1 ≤ (regStep cs table acc system).1 := by
  unfold regStep
  cases h : table.find? (fun e => e.1 = system) with
  | none => exact le_refl _
  | some e =>
    obtain ⟨nm, expected⟩ := e
    simp only []
    split_ifs with hm
    · exact le_refl _
    · have h0 : 0 ≤ (4/10 : ℚ) *
          (((expected.filter (fun s => s ∈ cs)).length : ℚ) /
            (expected.length : ℚ)) := by positivity
      simp only []
      linarith

theorem regFold_le (cs : List String) (table : List (String × List String)) :
    ∀ (qs : List String) (acc : ℚ × List String),
      acc.1 ≤ (qs.foldl (regStep cs table) acc).1 := by
  intro qs
  induction qs with
  | nil => intro acc; exact le_refl _
  | cons a qs ih =>
    intro acc
    exact le_trans (regStep_le cs table acc a) (ih _)

theorem regulatoryContribution_nonneg (p : String) (qs cs : List String) :
    0 ≤ (regulatoryContribution p qs cs).1 := by
  unfold regulatoryContribution
  cases platform_rules.find? (fun e => e.1 = p) with
  | none => norm_num
  | some e =>
    obtain ⟨nm, table⟩ := e
    simpa using regFold_le cs table qs (0, [])

theorem compute_rules_score_mem (q : QuerySpec) (c : Scenario) :
    0 ≤ (compute_rules_score q c).1 ∧ (compute_rules_score q c).1 ≤ 1 := by
  have hreg := regulatoryContribution_nonneg q.platform q.systems
    c.regulatory_standards
  have hr3 : (0 : ℚ) ≤ (2/10) *
      (((q.systems.toFinset ∩ c.target_systems.toFinset).card : ℚ) /
        (q.systems.length : ℚ)) := by positivity
  unfold compute_rules_score
  simp only []
  refine ⟨le_min ?_ zero_le_one, min_le_right _ _⟩
  split_ifs <;> simp only [] <;> linarith

theorem compute_historical_score_mem (c : Scenario) :
    0 ≤ compute_historical_score c ∧ compute_historical_score c ≤ 1 := by
  unfold compute_historical_score
  split_ifs with h
  · norm_num
  · have hlen : 0 < (c.historical_results.length : ℚ) := by
      exact_mod_cast List.length_pos.mpr h
    have hcnt : ((c.historical_results.count true : ℚ)) ≤
        (c.historical_results.length : ℚ) := by
      exact_mod_cast List.count_le_length true c.historical_results
    have hpr0 : 0 ≤ ((c.historical_results.count true : ℚ)) /
        (c.historical_results.length : ℚ) := by positivity
    have hpr1 : ((c.historical_results.count true : ℚ)) /
        (c.historical_results.length : ℚ) ≤ 1 := (div_le_one hlen).mpr hcnt
    have hc0 : (0 : ℚ) ≤ min ((c.historical_results.length : ℚ) / 10) 1 :=
      le_min (by positivity) zero_le_one
    have hc1 : min ((c.historical_results.length : ℚ) / 10) 1 ≤ 1 :=
      min_le_right _ _
    constructor <;> nlinarith

theorem jaccardScores_mem (a b : List String) :
    ∀ x ∈ jaccardScores a b, 0 ≤ x ∧ x ≤ 1 := by
  intro x hx
  unfold jaccardScores at hx
  by_cases h1 : a ≠ [] ∧ b ≠ []
  · rw [if_pos h1] at hx
    rcases List.mem_singleton.mp hx with rfl
    by_cases h2 : 0 < (a.toFinset ∪ b.toFinset).card
    · rw [if_pos h2]
      have hsub : (a.toFinset ∩ b.toFinset).card ≤ (a.toFinset ∪ b.toFinset).card :=
        Finset.card_le_card Finset.inter_subset_union
      have hpos : (0 : ℚ) < ((a.toFinset ∪ b.toFinset).card : ℚ) := by
        exact_mod_cast h2
      exact ⟨by positivity, (div_le_one hpos).mpr (by exact_mod_cast hsub)⟩
    · rw [if_neg h2]
      norm_num
  · rw [if_neg h1] at hx
    simp at hx

theorem pathScores_mem (gd : Option GraphData)
    (hgd : ∀ g l, gd = some g → g.shortest_path_length = some l → 0 ≤ l) :
    ∀ x ∈ pathScores gd, 0 ≤ x ∧ x ≤ 1 := by
  intro x hx
  unfold pathScores at hx
  rcases gd with _ | g
  · simp at hx
  · simp only [] at hx
    rcases hpl : g.shortest_path_length with _ | l
    · rw [hpl] at hx
      simp at hx
    · rw [hpl] at hx
      rcases List.mem_singleton.mp hx with rfl
      have h0 : 0 ≤ l := hgd g l rfl hpl
      have hmin0 : (0 : ℚ) ≤ min (l / 5) 1 := le_min (by positivity) zero_le_one
      have hmin1 : min (l / 5) 1 ≤ 1 := min_le_right _ _
      constructor <;> linarith

theorem list_avg_mem {l : List ℚ} (hne : l ≠ []) (h : ∀ x ∈ l, 0 ≤ x ∧ x ≤ 1) :
    0 ≤ l.sum / (l.length : ℚ) ∧ l.sum / (l.length : ℚ) ≤ 1 := by
  have hlen : 0 < (l.length : ℚ) := by
    exact_mod_cast List.length_pos.mpr hne
  have hsum0 : 0 ≤ l.sum := List.sum_nonneg (fun x hx => (h x hx).1)
  have hsum1 : l.sum ≤ (l.length : ℚ) := by
    have := List.sum_le_card_nsmul l 1 (fun x hx => (h x hx).2)
    simpa using this
  exact ⟨by positivity, (div_le_one hlen).mpr hsum1⟩

theorem compute_graph_proximity_mem (qc cc qs cs : List String)
    (gd : Option GraphData)
    (hgd : ∀ g l, gd = some g → g.shortest_path_length = some l → 0 ≤ l) :
    0 ≤ compute_graph_proximity qc cc qs cs gd ∧
    compute_graph_proximity qc cc qs cs gd ≤ 1 := by
  unfold compute_graph_proximity
  simp only []
  split_ifs with h
  · norm_num
  · apply list_avg_mem h
    intro x hx
    rcases List.mem_append.mp hx with hx | hx
    · rcases List.mem_append.mp hx with hx | hx
      · exact jaccardScores_mem qc cc x hx
      · exact jaccardScores_mem qs cs x hx
    · exact pathScores_mem gd hgd x hx

theorem dot_nil_right (u : List ℚ) : dot u [] = 0 := by
  cases u <;> rfl

theorem dot_sq_le (u : List ℚ) : ∀ v : List ℚ,
    (dot u v) ^ 2 ≤ normSq u * normSq v := by
  induction u with
  | nil =>
    intro v
    simp [dot_nil_left, normSq_nil]
  | cons a u ih =>
    intro v
    cases v with
    | nil => simp [dot_nil_right, normSq_nil]
    | cons b v =>
      rw [dot_cons_cons, normSq_cons, normSq_cons]
      have hA := normSq_nonneg u
      have hB := normSq_nonneg v
      have hd := ih v
      rcases eq_or_lt_of_le hB with hB0 | hBpos
      · have hd0 : dot u v = 0 := by nlinarith [sq_nonneg (dot u v)]
        rw [← hB0, hd0]
        nlinarith [sq_nonneg b, sq_nonneg (a * b), hA]
      · nlinarith [sq_nonneg (a * normSq v - b * dot u v),
          mul_nonneg (sq_nonneg b) (sub_nonneg.mpr hd)]

theorem cosine_similarity_bounds {u v : List ℚ} {x : ℝ}
    (h : cosine_similarity u v = some x) : -1 ≤ x ∧ x ≤ 1 := by
  unfold cosine_similarity at h
  split_ifs at h with hlen hz
  · rw [Option.some_inj] at h
    subst h
    have hA := normSq_nonneg u
    have hB := normSq_nonneg v
    have hABpos : (0 : ℚ) < normSq u * normSq v :=
      lt_of_le_of_ne (mul_nonneg hA hB) (Ne.symm hz)
    have hABposR : (0 : ℝ) < (normSq u : ℝ) * (normSq v : ℝ) := by
      exact_mod_cast hABpos
    have hsqrtpos : 0 < Real.sqrt ((normSq u : ℝ) * (normSq v : ℝ)) :=
      Real.sqrt_pos.mpr hABposR
    have hcs : ((dot u v : ℝ)) ^ 2 ≤ (normSq u : ℝ) * (normSq v : ℝ) := by
      exact_mod_cast dot_sq_le u v
    have habs : |(dot u v : ℝ)| ≤ Real.sqrt ((normSq u : ℝ) * (normSq v : ℝ)) := by
      rw [← Real.sqrt_sq_eq_abs]
      exact Real.sqrt_le_sqrt hcs
    rw [abs_le] at habs
    constructor
    · rw [le_div_iff hsqrtpos]
      linarith [habs.1]
    · rw [div_le_one hsqrtpos]
      exact habs.2

theorem seqOpt_length : ∀ {xs : List (Option α)} {l : List α},
    seqOpt xs = some l → l.length = xs.length := by
  intro xs
  induction xs with
  | nil =>
    intro l h
    simp [seqOpt] at h
    simp [← h]
  | cons x xs ih =>
    intro l h
    cases x with
    | none => simp [seqOpt] at h
    | some a =>
      rw [seqOpt] at h
      cases hx : seqOpt xs with
      | none => rw [hx] at h; simp at h
      | some t =>
        rw [hx] at h
        simp only [Option.some_inj] at h
        subst h
        simp [ih hx]

theorem seqOpt_mem : ∀ {xs : List (Option α)} {l : List α},
    seqOpt xs = some l → ∀ x ∈ l, some x ∈ xs := by
  intro xs
  induction xs with
  | nil =>
    intro l h x hx
    simp [seqOpt] at h
    subst h
    simp at hx
  | cons o xs ih =>
    intro l h x hx
    cases o with
    | none => simp [seqOpt] at h
    | some a =>
      rw [seqOpt] at h
      cases hxs : seqOpt xs with
      | none => rw [hxs] at h; simp at h
      | some t =>
        rw [hxs] at h
        simp only [Option.some_inj] at h
        subst h
        rcases List.mem_cons.mp hx with rfl | hx
        · exact List.mem_cons_self _ _
        · exact List.mem_cons_of_mem _ (ih hxs x hx)

instance : IsTotal Recommendation (fun a b => b.score ≤ a.score) :=
  ⟨fun a b => le_total b.score a.score⟩

instance : IsTrans Recommendation (fun a b => b.score ≤ a.score) :=
  ⟨fun _ _ _ hab hbc => le_trans hbc hab⟩

theorem sortRecs_cons (a : Recommendation) (l : List Recommendation) :
    sortRecs (a :: l) =
      List.orderedInsert (fun a b => b.score ≤ a.score) a (sortRecs l) := rfl

theorem sortRecs_sorted (l : List Recommendation) :
    List.Sorted (fun a b => b.score ≤ a.score) (sortRecs l) :=
  List.sorted_insertionSort _ l

theorem sortRecs_length (l : List Recommendation) :
    (sortRecs l).length = l.length :=
  List.length_insertionSort _ l

theorem mem_sortRecs {x : Recommendation} {l : List Recommendation} :
    x ∈ sortRecs l ↔ x ∈ l :=
  List.mem_insertionSort _

theorem filter_orderedInsert_score (s : ℝ) (a : Recommendation) :
    ∀ l : List Recommendation,
    (List.orderedInsert (fun a b => b.score ≤ a.score) a l).filter
      (fun x => x.score = s) =
    if a.score = s then a :: l.filter (fun x => x.score = s)
    else l.filter (fun x => x.score = s) := by
  intro l
  induction l with
  | nil =>
    simp only [List.orderedInsert, List.filter]
    split_ifs with ha <;> simp [ha]
  | cons b l ih =>
    rw [List.orderedInsert]
    by_cases hr : b.score ≤ a.score
    · rw [if_pos hr]
      by_cases ha : a.score = s <;> simp [List.filter_cons, ha]
    · rw [if_neg hr]
      by_cases ha : a.score = s
      · have hb : ¬ (b.score = s) := by
          intro hbs
          exact hr (by rw [hbs, ha])
        simp [List.filter_cons, ha, hb, ih]
      · by_cases hb : b.score = s <;> simp [List.filter_cons, ha, hb, ih]

theorem sortRecs_filter (s : ℝ) : ∀ l : List Recommendation,
    (sortRecs l).filter (fun x => x.score = s) =
      l.filter (fun x => x.score = s) := by
  intro l
  induction l with
  | nil => rfl
  | cons a l ih =>
    rw [sortRecs_cons, filter_orderedInsert_score]
    by_cases ha : a.score = s
    · rw [if_pos ha, ih]
      simp [List.filter_cons, ha]
    · rw [if_neg ha, ih]
      simp [List.filter_cons, ha]

theorem baseRecommendation_score_eq (sp : Option ℝ × ℝ) (q : QuerySpec)
    (gd : Option (String → Option GraphData)) (c : Scenario) :
    (baseRecommendation sp q gd c).score = (weights_semantic : ℝ) * sp.2 +
      (weights_graph : ℝ) * ((compute_graph_proximity q.components
        c.target_components q.systems c.target_systems
        (gdLookup gd c.scenario_id) : ℚ) : ℝ) +
      (weights_rules : ℝ) * (((compute_rules_score q c).1 : ℚ) : ℝ) +
      (weights_historical : ℝ) * ((compute_historical_score c : ℚ) : ℝ) := rfl

theorem baseRecommendation_semantic_eq (sp : Option ℝ × ℝ) (q : QuerySpec)
    (gd : Option (String → Option GraphData)) (c : Scenario) :
    (baseRecommendation sp q gd c).scores.semantic = sp.1 := rfl

theorem baseRecommendation_graph_eq (sp : Option ℝ × ℝ) (q : QuerySpec)
    (gd : Option (String → Option GraphData)) (c : Scenario) :
    (baseRecommendation sp q gd c).scores.graph =
      compute_graph_proximity q.components c.target_components q.systems
        c.target_systems (gdLookup gd c.scenario_id) := rfl

theorem baseRecommendation_rules_eq (sp : Option ℝ × ℝ) (q : QuerySpec)
    (gd : Option (String → Option GraphData)) (c : Scenario) :
    (baseRecommendation sp q gd c).scores.rules =
      (compute_rules_score q c).1 := rfl

theorem baseRecommendation_historical_eq (sp : Option ℝ × ℝ) (q : QuerySpec)
    (gd : Option (String → Option GraphData)) (c : Scenario) :
    (baseRecommendation sp q gd c).scores.historical =
      compute_historical_score c := rfl

theorem scoreCandidate_none (q : QuerySpec)
    (gd : Option (String → Option GraphData)) (c : Scenario) :
    scoreCandidate none q gd c =
      some (baseRecommendation (none, 0) q gd c) := rfl

theorem seqOpt_map_some (f : β → α) : ∀ l : List β,
    seqOpt (l.map (fun b => some (f b))) = some (l.map f) := by
  intro l
  induction l with
  | nil => rfl
  | cons b l ih => simp [seqOpt, ih]

theorem baseRecommendation_score_bounds (sp : Option ℝ × ℝ) (q : QuerySpec)
    (gd : Option (String → Option GraphData)) (c : Scenario)
    (hsp : -1 ≤ sp.2 ∧ sp.2 ≤ 1)
    (hgd : ∀ (g : GraphData) (l : ℚ), gdLookup gd c.scenario_id =
      some g → g.shortest_path_length = some l → 0 ≤ l) :
    -(2/5) ≤ (baseRecommendation sp q gd c).score ∧
      (baseRecommendation sp q gd c).score ≤ 1 := by
  have hg := compute_graph_proximity_mem q.components c.target_components
    q.systems c.target_systems _ hgd
  have hr := compute_rules_score_mem q c
  have hh := compute_historical_score_mem c
  rw [baseRecommendation_score_eq]
  have hg0 : (0 : ℝ) ≤ ((compute_graph_proximity q.components
      c.target_components q.systems c.target_systems
      (gdLookup gd c.scenario_id) : ℚ) : ℝ) := by
    exact_mod_cast hg.1
  have hg1 : ((compute_graph_proximity q.components c.target_components
      q.systems c.target_systems (gdLookup gd c.scenario_id) : ℚ) : ℝ) ≤ 1 := by
    exact_mod_cast hg.2
  have hr0 : (0 : ℝ) ≤ (((compute_rules_score q c).1 : ℚ) : ℝ) := by
    exact_mod_cast hr.1
  have hr1 : (((compute_rules_score q c).1 : ℚ) : ℝ) ≤ 1 := by
    exact_mod_cast hr.2
  have hh0 : (0 : ℝ) ≤ ((compute_historical_score c : ℚ) : ℝ) := by
    exact_mod_cast hh.1
  have hh1 : ((compute_historical_score c : ℚ) : ℝ) ≤ 1 := by
    exact_mod_cast hh.2
  unfold weights_semantic weights_graph weights_rules weights_historical
  push_cast
  constructor <;> nlinarith [hsp.1, hsp.2]

theorem scoreCandidate_bounds {qe : Option (List ℚ)} {q : QuerySpec}
    {gd : Option (String → Option GraphData)} {c : Scenario}
    {rec : Recommendation}
    (hgd : ∀ (g : GraphData) (l : ℚ), gdLookup gd c.scenario_id =
      some g → g.shortest_path_length = some l → 0 ≤ l)
    (h : scoreCandidate qe q gd c = some rec) :
    -(2/5) ≤ rec.score ∧ rec.score ≤ 1 := by
  have hsem : ∃ sp : Option ℝ × ℝ, rec = baseRecommendation sp q gd c ∧
      -1 ≤ sp.2 ∧ sp.2 ≤ 1 := by
    rcases qe with _ | qv
    · rw [scoreCandidate_none, Option.some_inj] at h
      exact ⟨(none, 0), h.symm, by norm_num⟩
    · unfold scoreCandidate at h
      rcases hce : c.embedding with _ | cv
      · rw [hce] at h
        simp only [Option.map_some'] at h
        rw [Option.some_inj] at h
        exact ⟨(none, 0), h.symm, by norm_num⟩
      · rw [hce] at h
        simp only [] at h
        cases hcos : cosine_similarity qv cv with
        | none => rw [hcos] at h; simp at h
        | some x =>
          rw [hcos] at h
          simp only [Option.map_some'] at h
          rw [Option.some_inj] at h
          exact ⟨(some x, x), h.symm, cosine_similarity_bounds hcos⟩
  obtain ⟨sp, rfl, hsp⟩ := hsem
  exact baseRecommendation_score_bounds sp q gd c hsp hgd

theorem gd_pointwise {gd : Option (String → Option GraphData)}
    (hgd : ∀ f, gd = some f → ∀ (id : String) (g : GraphData) (l : ℚ),
      f id = some g → g.shortest_path_length = some l → 0 ≤ l) (c : Scenario) :
    ∀ (g : GraphData) (l : ℚ), gdLookup gd c.scenario_id =
      some g → g.shortest_path_length = some l → 0 ≤ l := by
  intro g l hm hl
  rcases gd with _ | f
  · simp [gdLookup] at hm
  · exact hgd f rfl c.scenario_id g l (by simpa [gdLookup] using hm) hl

theorem sameLength_spec {l : List (List ℚ)} (h : sameLength l = true) :
    ∀ x ∈ l, ∀ y ∈ l, x.length = y.length := by
  cases l with
  | nil => simp
  | cons e rest =>
    have hall : ∀ x ∈ rest, x.length = e.length := by
      intro x hx
      have := List.all_eq_true.mp h x hx
      exact of_decide_eq_true this
    intro x hx y hy
    have hx' : x.length = e.length := by
      rcases List.mem_cons.mp hx with rfl | hx
      · rfl
      · exact hall x hx
    have hy' : y.length = e.length := by
      rcases List.mem_cons.mp hy with rfl | hy
      · rfl
      · exact hall y hy
    rw [hx', hy']

theorem getD_mem_of_lt {l : List (List ℚ)} {i : ℕ} (h : i < l.length) :
    l.getD i [] ∈ l := by
  rw [List.getD_eq_getElem?_getD, List.getElem?_eq_getElem h]
  exact List.getElem_mem h

theorem maxPy_foldl_isSome :
    ∀ (xs : List (Option ℝ)) (x : Option ℝ), x.isSome →
      (∀ y ∈ xs, y.isSome) →
      (xs.foldl (fun a b =>
        match b, a with
        | some b', some a' => if a' < b' then some b' else a
        | _, _ => a) x).isSome := by
  intro xs
  induction xs with
  | nil => intro x hx _; exact hx
  | cons y ys ih =>
    intro x hx hall
    apply ih
    · obtain ⟨yv, hyv⟩ := Option.isSome_iff_exists.mp (hall y (List.mem_cons_self y ys))
      obtain ⟨xv, hxv⟩ := Option.isSome_iff_exists.mp hx
      subst hyv hxv
      simp only []
      split_ifs <;> rfl
    · intro z hz
      exact hall z (List.mem_cons_of_mem y hz)

theorem maxPy_some {l : List (Option ℝ)} (hne : l ≠ [])
    (hall : ∀ y ∈ l, y.isSome) : ∃ v, maxPy l = some v := by
  cases l with
  | nil => exact absurd rfl hne
  | cons x xs =>
    rw [Option.isSome_iff_exists.symm]
    unfold maxPy
    exact maxPy_foldl_isSome xs x (hall x (List.mem_cons_self x xs))
      (fun y hy => hall y (List.mem_cons_of_mem x hy))

theorem cosine_defined {embs : List (List ℚ)} {i j : ℕ}
    (hi : i < embs.length) (hj : j < embs.length)
    (hdim : sameLength embs = true) (hnz : ∀ e ∈ embs, normSq e ≠ 0) :
    (cosine_similarity (embs.getD i []) (embs.getD j [])).isSome := by
  have hmi := getD_mem_of_lt hi
  have hmj := getD_mem_of_lt hj
  unfold cosine_similarity
  rw [if_pos (sameLength_spec hdim _ hmi _ hmj),
    if_neg (mul_ne_zero (hnz _ hmi) (hnz _ hmj))]
  rfl

theorem mmrScore_lam_one {cands : List (α × ℝ)} {embs : List (List ℚ)}
    {selIdx : List ℕ} {i : ℕ} (hsel : selIdx ≠ [])
    (hselr : ∀ j ∈ selIdx, j < embs.length) (hi : i < embs.length)
    (hdim : sameLength embs = true) (hnz : ∀ e ∈ embs, normSq e ≠ 0) :
    mmrScore cands embs 1 selIdx i = some (relAt cands i) := by
  unfold mmrScore
  rw [if_neg hsel]
  obtain ⟨mx, hmx⟩ := maxPy_some
    (l := selIdx.map (fun j => cosine_similarity (embs.getD i []) (embs.getD j [])))
    (by simpa using hsel)
    (by
      intro y hy
      obtain ⟨j, hj, rfl⟩ := List.mem_map.mp hy
      exact cosine_defined hi (hselr j hj) hdim hnz)
  rw [hmx]
  simp only [Option.map_some', Option.some_inj]
  ring

theorem mmrBest_no_displace {cands : List (α × ℝ)} {embs : List (List ℚ)}
    {lam : ℝ} {selIdx : List ℕ} :
    ∀ (idxs : List ℕ) (b : ℕ) (sb : ℝ),
      (∀ i ∈ idxs, mmrScore cands embs lam selIdx i = some (relAt cands i)) →
      (∀ i ∈ idxs, relAt cands i ≤ sb) →
      mmrBest cands embs lam selIdx idxs (some (b, sb)) = some (b, sb) := by
  intro idxs
  induction idxs with
  | nil => intro b sb _ _; rfl
  | cons i rest ih =>
    intro b sb hsc hle
    rw [mmrBest, hsc i (List.mem_cons_self i rest)]
    simp only []
    rw [if_neg (not_lt.mpr (hle i (List.mem_cons_self i rest)))]
    exact ih b sb (fun j hj => hsc j (List.mem_cons_of_mem i hj))
      (fun j hj => hle j (List.mem_cons_of_mem i hj))

theorem mmrBest_first {cands : List (α × ℝ)} {embs : List (List ℚ)}
    {lam : ℝ} {selIdx : List ℕ} {i0 : ℕ} {rest : List ℕ}
    (hsc : ∀ i ∈ i0 :: rest,
      mmrScore cands embs lam selIdx i = some (relAt cands i))
    (hle : ∀ i ∈ rest, relAt cands i ≤ relAt cands i0) :
    mmrBest cands embs lam selIdx (i0 :: rest) none =
      some (i0, relAt cands i0) := by
  rw [mmrBest, hsc i0 (List.mem_cons_self i0 rest)]
  exact mmrBest_no_displace rest i0 (relAt cands i0)
    (fun j hj => hsc j (List.mem_cons_of_mem i0 hj)) hle

theorem relAt_anti {cands : List (α × ℝ)}
    (hsort : List.Sorted (fun a b : α × ℝ => b.2 ≤ a.2) cands) {i j : ℕ}
    (hij : i ≤ j) (hjn : j < cands.length) :
    relAt cands j ≤ relAt cands i := by
  have hin : i < cands.length := lt_of_le_of_lt hij hjn
  unfold relAt
  rw [List.get?_eq_get hjn, List.get?_eq_get hin]
  simp only [Option.map_some', Option.getD_some]
  rcases eq_or_lt_of_le hij with rfl | hlt
  · exact le_refl _
  · exact List.pairwise_iff_get.mp hsort ⟨i, hin⟩ ⟨j, hjn⟩ hlt

theorem mmrLoop_lam_one {α : Type} (cands : List (α × ℝ))
    (embs : List (List ℚ)) (k : ℕ)
    (hsort : List.Sorted (fun a b : α × ℝ => b.2 ≤ a.2) cands)
    (hlen : embs.length = cands.length)
    (hdim : sameLength embs = true)
    (hnz : ∀ e ∈ embs, normSq e ≠ 0)
    (hk : k < cands.length) :
    ∀ (fuel m : ℕ), 1 ≤ m → m ≤ k → cands.length - m ≤ fuel →
      mmrLoop cands embs 1 k fuel (cands.take m) (List.range m)
        (List.range' m (cands.length - m)) = some (cands.take k) := by
  intro fuel
  induction fuel with
  | zero =>
    intro m h1 hmk hfuel
    omega
  | succ fuel ih =>
    intro m h1 hmk hfuel
    have hmn : m < cands.length := lt_of_le_of_lt hmk hk
    have htl : (cands.take m).length = m := by
      rw [List.length_take]
      omega
    rcases eq_or_lt_of_le hmk with rfl | hmk'
    · rw [mmrLoop, if_neg]
      rintro ⟨hlt, -⟩
      rw [htl] at hlt
      omega
    · have hrem : List.range' m (cands.length - m) =
          m :: List.range' (m + 1) (cands.length - (m + 1)) := by
        rw [show cands.length - m = (cands.length - (m + 1)) + 1 by omega,
          List.range'_succ]
      have hsc : ∀ i ∈ List.range' m (cands.length - m),
          mmrScore cands embs 1 (List.range m) i = some (relAt cands i) := by
        intro i hi
        obtain ⟨d, hd, rfl⟩ := List.mem_range'.mp hi
        refine mmrScore_lam_one ?_ ?_ ?_ hdim hnz
        · simp [List.range_eq_nil]
          omega
        · intro j hj
          rw [hlen]
          have := List.mem_range.mp hj
          omega
        · rw [hlen]
          omega
      have hbest : mmrBest cands embs 1 (List.range m)
          (List.range' m (cands.length - m)) none =
          some (m, relAt cands m) := by
        rw [hrem]
        refine mmrBest_first (by rw [← hrem]; exact hsc) ?_
        intro i hi
        obtain ⟨d, hd, rfl⟩ := List.mem_range'.mp hi
        exact relAt_anti hsort (by omega) (by omega)
      rw [mmrLoop, if_pos ⟨by rw [htl]; exact hmk', by rw [hrem]; simp⟩, hbest]
      simp only []
      rw [List.get?_eq_get hmn]
      simp only []
      have hsel : cands.take m ++ [cands.get ⟨m, hmn⟩] = cands.take (m + 1) := by
        rw [← List.concat_eq_append, List.get_eq_getElem]
        exact List.take_concat_get cands m hmn
      have hidx : List.range m ++ [m] = List.range (m + 1) :=
        (List.range_succ m).symm
      have herase : (List.range' m (cands.length - m)).erase m =
          List.range' (m + 1) (cands.length - (m + 1)) := by
        rw [hrem, List.erase_cons_head]
      rw [hsel, hidx, herase]
      exact ih (m + 1) (by omega) hmk' (by omega)

/-! ### Claims -/

/-- C2 counterexample: for the spec's concrete scenario 3 the rules score
computed by `compute_rules_score` is 19/30 ≈ 0.633, not the claimed 0.7:
the `EV`/`Battery` entry of the platform table has three expected
standards, so the regulatory term is `0.4·(1/3)`, not `0.4·(1/2)`. -/
theorem C2_counterexample :
    (compute_rules_score c2Query c2Candidate).1 = 19/30 ∧
    ((19 : ℚ)/30) ≠ 7/10 := by
  constructor
  · have h1 : (["Battery"].toFinset ∩ ["Battery", "Thermal"].toFinset).card = 1 := by
      decide
    have e1 : ("ISO_6469" : String) ≠ "UNECE_R100" := by decide
    have e2 : ("SAE_J2929" : String) ≠ "UNECE_R100" := by decide
    simp +decide only [compute_rules_score, regulatoryContribution, regStep, platform_rules,
      List.find?, List.filter, List.foldl_cons, List.foldl_nil, c2Query, c2Candidate, h1]
    norm_num [min_def, List.filter_cons, List.filter_nil, e1, e2]
  · norm_num

/-- C2 (amended): for the spec's concrete scenario 3 the rules score is
`0.3` (platform match) + `0.4·(1/3)` (one of the three expected `EV`
Battery standards matched) + `0.2·(1/1)` (system overlap), totalling
19/30 before clipping. -/
theorem C2_rules_score_scenario3 :
    regulatoryContribution "EV" ["Battery"] ["UNECE_R100"] =
      ((4/10) * ((1 : ℚ)/3), ["Regulatory match for Battery: UNECE_R100"]) ∧
    (compute_rules_score c2Query c2Candidate).1 =
      3/10 + (4/10) * (1/3) + (2/10) * (1/1) := by
  have e1 : ("ISO_6469" : String) ≠ "UNECE_R100" := by decide
  have e2 : ("SAE_J2929" : String) ≠ "UNECE_R100" := by decide
  have e3 : String.intercalate ", " ["UNECE_R100"] = "UNECE_R100" := by decide
  constructor
  · simp +decide [regulatoryContribution, regStep, platform_rules, List.find?,
      List.filter_cons, e1, e2, e3]
  · have h1 : (["Battery"].toFinset ∩ ["Battery", "Thermal"].toFinset).card = 1 := by
      decide
    simp +decide only [compute_rules_score, regulatoryContribution, regStep, platform_rules,
      List.find?, List.filter, List.foldl_cons, List.foldl_nil, c2Query, c2Candidate, h1]
    norm_num [min_def, List.filter_cons, List.filter_nil, e1, e2]

/-- C3: `cosine_similarity` on a zero-norm vector against itself is
undefined (`none`, the Python `NaN` of `1.0 - scipy cosine distance`),
not the claimed 0; on a non-zero vector against itself it is exactly 1. -/
theorem C3_cosine_self_eval :
    cosine_similarity [(0 : ℚ)] [0] = none ∧
    cosine_similarity [(1 : ℚ)] [1] = some 1 := by
  constructor
  · norm_num [cosine_similarity, normSq, dot]
  · norm_num [cosine_similarity, normSq, dot, Real.sqrt_one]

/-- C8 (amended): when fewer scenarios carry an embedding than
`min_cluster_size` (in particular for the empty list),
`detect_duplicates_by_embedding` returns the empty result
`{'clusters': [], 'duplicates': []}` — with no `noise_points` key —
rather than raising an error. -/
theorem C8_small_batch_empty_result (cfg : DetectorConfig)
    (scenarios : List Scenario) (labels : List ℤ)
    (h : (validOf scenarios).length < cfg.min_cluster_size ∨ scenarios = []) :
    detect_duplicates_by_embedding cfg scenarios labels = .ok emptyDetectResult := by
  by_cases hs : scenarios = []
  · simp [detect_duplicates_by_embedding, hs]
  · rcases h with h | h
    · simp only [detect_duplicates_by_embedding, if_neg hs]
      rw [if_pos]
      rw [length_filterMap_embedding]
      exact h
    · exact absurd h hs

/-- C8 counterexample: the early-return value of
`detect_duplicates_by_embedding` omits the `noise_points` key (modelled
`none`), so it does not have the documented shape
`{clusters, duplicates, noisePoints}`. -/
theorem C8_counterexample :
    detect_duplicates_by_embedding {} [] [] = .ok emptyDetectResult ∧
    emptyDetectResult.noise_points = none := by
  constructor
  · simp [detect_duplicates_by_embedding]
  · rfl

/-- C8 witness: a single scenario without an embedding is below the
default `min_cluster_size` of 2. -/
theorem C8_small_batch_witness :
    detect_duplicates_by_embedding {} [{ scenario_id := "x" }] [] =
      .ok emptyDetectResult :=
  C8_small_batch_empty_result {} [{ scenario_id := "x" }] [] (Or.inl (by decide))

/-- C9: a batch whose embedded scenarios reach `min_cluster_size` but
whose embedding vectors do not all share one dimension fails with
`DimensionMismatch` (the `ValueError` raised at `np.array(embeddings)`)
rather than proceeding. -/
theorem C9_dimension_mismatch (cfg : DetectorConfig)
    (scenarios : List Scenario) (labels : List ℤ)
    (hne : scenarios ≠ [])
    (hc : cfg.min_cluster_size ≤
      ((validOf scenarios).filterMap (fun s => s.embedding)).length)
    (hdim : sameLength ((validOf scenarios).filterMap (fun s => s.embedding)) =
      false) :
    detect_duplicates_by_embedding cfg scenarios labels =
      .error .dimensionMismatch := by
  simp only [detect_duplicates_by_embedding, if_neg hne]
  rw [if_neg (by omega), if_pos]
  simp [hdim]

/-- C9 witness: one 1-dimensional and one 2-dimensional embedding with the
default detector configuration. -/
theorem C9_dimension_mismatch_witness :
    detect_duplicates_by_embedding {} [dimScenario1, dimScenario2] [] =
      .error .dimensionMismatch :=
  C9_dimension_mismatch {} [dimScenario1, dimScenario2] []
    (by decide) (by decide) (by decide)

/-- C4: in the clustering path, a member of a (≥ 2 element) cluster is
flagged as duplicate iff it does not carry the canonical's id and its
weighted overall similarity to the canonical is ≥ the threshold; every
duplicate-group entry of `identify_duplicates_in_clusters` arises that
way; a flagged entry's action label is `consolidate` iff its overall
similarity is > 0.95 and `review` otherwise; and in the all-pairs path an
ordered pair appears in `find_similar_pairs` iff its overall similarity
reaches the threshold. -/
theorem C4_duplicate_flagging :
    (∀ (θ : ℚ) (c : Cluster), 2 ≤ c.scenarios.length →
      cluster_duplicate_entries θ c =
        (c.scenarios.filter (fun s => s.scenario_id ≠ c.canonical.scenario_id ∧
          θ ≤ (compute_detailed_similarity c.canonical s).overall)).map
          (mkDupEntry c.canonical)) ∧
    (∀ (θ : ℚ) (clusters : List Cluster) (g : DupGroup) (e : DupEntry),
      g ∈ identify_duplicates_in_clusters θ clusters → e ∈ g.duplicates →
      ∃ c ∈ clusters, g.cluster_id = c.cluster_id ∧
        e ∈ cluster_duplicate_entries θ c) ∧
    (∀ (θ : ℚ) (c : Cluster) (e : DupEntry), e ∈ cluster_duplicate_entries θ c →
      ((e.recommendation = "consolidate" ↔
         (95 : ℚ)/100 < e.similarity_to_canonical) ∧
       (e.recommendation = "review" ↔ e.similarity_to_canonical ≤ 95/100))) ∧
    (∀ (scenarios : List Scenario) (θ : ℚ) (p : SimilarPair),
      p ∈ find_similar_pairs scenarios θ ↔
        ∃ s1 s2, List.Sublist [s1, s2] scenarios ∧
          θ ≤ (compute_detailed_similarity s1 s2).overall ∧
          p = mkSimilarPair s1 s2) := by
  refine ⟨?_, ?_, ?_, ?_⟩
  · intro θ c hlen
    unfold cluster_duplicate_entries
    rw [if_neg (by omega)]
    exact clusterDupLoop_eq θ c.canonical c.scenarios
  · intro θ clusters g e hg he
    obtain ⟨c, hc, hsome⟩ := List.mem_filterMap.mp hg
    by_cases hne : cluster_duplicate_entries θ c = []
    · rw [if_pos hne] at hsome
      exact absurd hsome (by simp)
    · rw [if_neg hne, Option.some_inj] at hsome
      refine ⟨c, hc, ?_, ?_⟩
      · rw [← hsome]
      · have : g.duplicates = cluster_duplicate_entries θ c := by rw [← hsome]
        rwa [this] at he
  · intro θ c e he
    obtain ⟨s, _, _, _, hes⟩ := mem_cluster_duplicate_entries he
    rw [hes]
    exact mkDupEntry_label c.canonical s
  · intro scenarios θ p
    unfold find_similar_pairs
    rw [List.mem_insertionSort]
    exact mem_collectPairs θ scenarios p

/-- C4 witness: the characterisation instantiated at the default threshold
and a concrete two-member cluster. -/
theorem C4_duplicate_flagging_witness :
    cluster_duplicate_entries (85/100) c4Cluster =
      (c4Cluster.scenarios.filter (fun s =>
        s.scenario_id ≠ c4Cluster.canonical.scenario_id ∧
        (85 : ℚ)/100 ≤ (compute_detailed_similarity c4Cluster.canonical s).overall)).map
        (mkDupEntry c4Cluster.canonical) :=
  C4_duplicate_flagging.1 (85/100) c4Cluster (by decide)

/-- C5: in every cluster of a successful `detect_duplicates_by_embedding`
call, the designated canonical member is a member whose composite quality
score is maximal, ties resolved in favour of the first-encountered member
(strictly greater scores before it); and every duplicate-group entry stems
from an embedded scenario whose clusterer label is not the −1 noise
marker. -/
theorem C5_canonical_and_noise (cfg : DetectorConfig)
    (scenarios : List Scenario) (labels : List ℤ) (r : DetectResult)
    (h : detect_duplicates_by_embedding cfg scenarios labels = .ok r) :
    (∀ c ∈ r.clusters, ∃ i : Fin c.scenarios.length,
      c.canonical = c.scenarios.get i ∧
      (∀ s ∈ c.scenarios, qualityScore s ≤ qualityScore c.canonical) ∧
      (∀ j : Fin c.scenarios.length, (j : ℕ) < (i : ℕ) →
        qualityScore (c.scenarios.get j) < qualityScore c.canonical)) ∧
    (∀ g ∈ r.duplicates, ∀ e ∈ g.duplicates,
      ∃ p ∈ pairsOf scenarios labels, p.2 ≠ -1 ∧
        e.scenario_id = p.1.scenario_id) := by
  simp only [detect_duplicates_by_embedding] at h
  split_ifs at h with h1 h2 h3
  · rw [Except.ok.injEq] at h
    subst h
    simp [emptyDetectResult]
  · rw [Except.ok.injEq] at h
    subst h
    simp [emptyDetectResult]
  · rw [Except.ok.injEq] at h
    subst h
    constructor
    · intro c hc
      obtain ⟨lab, hlabne, hceq, hne⟩ := mem_clustersOf hc
      subst hceq
      simp only [clusterOf]
      rcases hM : membersOf scenarios labels lab with _ | ⟨m, ms⟩
      · exact absurd hM hne
      · obtain ⟨i, hi, hall, hfirst⟩ := select_canonical_spec m ms
        refine ⟨i, hi, ?_, ?_⟩
        · intro s hs
          rw [hi]
          exact hall s hs
        · intro j hj
          rw [hi]
          exact hfirst j hj
    · intro g hg e he
      obtain ⟨c, hc, hgid, hdup⟩ := mem_identify_duplicates hg
      rw [hdup] at he
      obtain ⟨s, hsmem, hsne, hsθ, hse⟩ := mem_cluster_duplicate_entries he
      obtain ⟨lab, hlabne, hceq, -⟩ := mem_clustersOf hc
      subst hceq
      obtain ⟨p, hpmem, hp2, hp1⟩ := mem_membersOf
        (show s ∈ membersOf scenarios labels lab by simpa [clusterOf] using hsmem)
      refine ⟨p, hpmem, ?_, ?_⟩
      · rw [hp2]
        exact hlabne
      · rw [hse, hp1]
        simp [mkDupEntry]

/-- C5 witness: the theorem instantiated at the concrete empty batch,
whose detection result is the empty record. -/
theorem C5_canonical_and_noise_witness :
    (∀ c ∈ emptyDetectResult.clusters, ∃ i : Fin c.scenarios.length,
      c.canonical = c.scenarios.get i ∧
      (∀ s ∈ c.scenarios, qualityScore s ≤ qualityScore c.canonical) ∧
      (∀ j : Fin c.scenarios.length, (j : ℕ) < (i : ℕ) →
        qualityScore (c.scenarios.get j) < qualityScore c.canonical)) ∧
    (∀ g ∈ emptyDetectResult.duplicates, ∀ e ∈ g.duplicates,
      ∃ p ∈ pairsOf [] [], p.2 ≠ -1 ∧ e.scenario_id = p.1.scenario_id) :=
  C5_canonical_and_noise {} [] [] emptyDetectResult
    (by simp [detect_duplicates_by_embedding])

/-- C6: every successful `recommend` result is sorted descending by final
score; it is the `top_k` prefix of the stable sort of the per-candidate
scores in input order, so ties preserve original candidate order (the
equal-score entries of the output are a prefix of the equal-score entries
of the unsorted list); a `top_k` at least the candidate count returns
every candidate in sorted order; the empty candidate list yields `[]`. -/
theorem C6_output_sorted_stable (pipeline : Option (String → List ℚ))
    (q : QuerySpec) (candidates : List Scenario) (k : ℕ)
    (gd : Option (String → Option GraphData)) (r : List Recommendation)
    (h : recommend pipeline q candidates k gd = some r) :
    List.Sorted (fun a b : Recommendation => b.score ≤ a.score) r ∧
    (∃ recs, seqOpt (candidates.map
        (scoreCandidate (queryEmbedding pipeline q) q gd)) = some recs ∧
      recs.length = candidates.length ∧
      r = (sortRecs recs).take k ∧
      (∀ s : ℝ, List.IsPrefix (r.filter (fun x => x.score = s))
        (recs.filter (fun x => x.score = s))) ∧
      (candidates.length ≤ k → r = sortRecs recs)) ∧
    (candidates = [] → r = []) := by
  unfold recommend at h
  cases hseq : seqOpt (candidates.map
      (scoreCandidate (queryEmbedding pipeline q) q gd)) with
  | none => rw [hseq] at h; simp at h
  | some recs =>
    rw [hseq] at h
    simp only [Option.map_some'] at h
    rw [Option.some_inj] at h
    subst h
    have hlen : recs.length = candidates.length := by
      simpa using seqOpt_length hseq
    refine ⟨?_, ⟨recs, rfl, hlen, rfl, ?_, ?_⟩, ?_⟩
    · exact List.Pairwise.sublist (List.take_sublist _ _) (sortRecs_sorted recs)
    · intro s
      refine ⟨((sortRecs recs).drop k).filter (fun x => x.score = s), ?_⟩
      rw [← List.filter_append, List.take_append_drop, sortRecs_filter]
    · intro hk
      apply List.take_of_length_le
      rw [sortRecs_length, hlen]
      exact hk
    · intro hc
      subst hc
      have h0 : recs = [] := List.length_eq_zero.mp (by simpa using hlen)
      subst h0
      exact List.take_nil

/-- C6 witness: the theorem instantiated at the empty candidate list. -/
theorem C6_output_sorted_stable_witness :
    List.Sorted (fun a b : Recommendation => b.score ≤ a.score)
      ([] : List Recommendation) ∧
    (∃ recs, seqOpt (([] : List Scenario).map
        (scoreCandidate (queryEmbedding none {}) {} none)) = some recs ∧
      recs.length = ([] : List Scenario).length ∧
      ([] : List Recommendation) = (sortRecs recs).take 5 ∧
      (∀ s : ℝ, List.IsPrefix
        (([] : List Recommendation).filter (fun x => x.score = s))
        (recs.filter (fun x => x.score = s))) ∧
      (([] : List Scenario).length ≤ 5 →
        ([] : List Recommendation) = sortRecs recs)) ∧
    (([] : List Scenario) = [] → ([] : List Recommendation) = []) :=
  C6_output_sorted_stable none {} [] 5 none []
    (by simp [recommend, seqOpt, sortRecs])

/-- C1 (amended): the ensemble weights are exactly
{semantic 0.4, graph 0.3, rules 0.2, historical 0.1} and sum to 1.0, and
for well-formed inputs (non-negative externally supplied path lengths,
defined cosine values) every final score lies in [−0.4, 1]: the semantic
cosine term may be negative, so 0 is not a lower bound. -/
theorem C1_weights_and_score_range :
    weights_semantic = 4/10 ∧ weights_graph = 3/10 ∧ weights_rules = 2/10 ∧
    weights_historical = 1/10 ∧
    weights_semantic + weights_graph + weights_rules + weights_historical = 1 ∧
    ∀ (pipeline : Option (String → List ℚ)) (q : QuerySpec)
      (candidates : List Scenario) (k : ℕ)
      (gd : Option (String → Option GraphData)) (r : List Recommendation),
      (∀ f, gd = some f → ∀ (id : String) (g : GraphData) (l : ℚ),
        f id = some g → g.shortest_path_length = some l → 0 ≤ l) →
      recommend pipeline q candidates k gd = some r →
      ∀ x ∈ r, -(2/5) ≤ x.score ∧ x.score ≤ 1 := by
  refine ⟨rfl, rfl, rfl, rfl,
    by norm_num [weights_semantic, weights_graph, weights_rules,
      weights_historical], ?_⟩
  intro pipeline q candidates k gd r hgd h x hx
  unfold recommend at h
  cases hseq : seqOpt (candidates.map
      (scoreCandidate (queryEmbedding pipeline q) q gd)) with
  | none => rw [hseq] at h; simp at h
  | some recs =>
    rw [hseq] at h
    simp only [Option.map_some'] at h
    rw [Option.some_inj] at h
    subst h
    have hx2 : x ∈ recs := mem_sortRecs.mp ((List.take_sublist _ _).subset hx)
    obtain ⟨c, hcmem, hcs⟩ := List.mem_map.mp (seqOpt_mem hseq x hx2)
    exact scoreCandidate_bounds (gd_pointwise hgd c) hcs

/-- C1 witness: the amended bound instantiated at the empty candidate
list. -/
theorem C1_weights_and_score_range_witness :
    ∀ x ∈ ([] : List Recommendation), -(2/5) ≤ x.score ∧ x.score ≤ 1 :=
  C1_weights_and_score_range.2.2.2.2.2 none {} [] 3 none [] (by simp)
    (by simp [recommend, seqOpt, sortRecs])

/-- C1 counterexample: with a pipeline encoding the query as `[1]` and a
candidate embedded as `[-1]`, the semantic cosine is −1 and the single
final score is −0.2, outside the claimed range [0, 1]. -/
theorem C1_counterexample :
    (recommend c1Pipeline c1Query [c1Candidate] 10 none).map
      (fun l => l.map (fun x => x.score)) = some [-(1/5)] ∧
    ¬ ((0 : ℝ) ≤ -(1/5)) := by
  constructor
  · have hcos : cosine_similarity [1] [-1] = some (-1) := by
      norm_num [cosine_similarity, normSq, dot, Real.sqrt_one]
    have hqe : queryEmbedding c1Pipeline c1Query = some [1] := by
      simp [queryEmbedding, c1Pipeline, c1Query]
    have hsc : scoreCandidate (some [1]) c1Query none c1Candidate =
        some (baseRecommendation (some (-1), -1) c1Query none c1Candidate) := by
      simp [scoreCandidate, c1Candidate, hcos]
    have hscore : (baseRecommendation (some (-1), -1) c1Query none
        c1Candidate).score = -(1/5) := by
      rw [baseRecommendation_score_eq]
      have hg : compute_graph_proximity c1Query.components
          c1Candidate.target_components c1Query.systems
          c1Candidate.target_systems (gdLookup none c1Candidate.scenario_id) =
          1/2 := by
        simp [compute_graph_proximity, jaccardScores, pathScores, gdLookup,
          c1Query, c1Candidate]
      have hr : (compute_rules_score c1Query c1Candidate).1 = 0 := by
        simp +decide [compute_rules_score, regulatoryContribution, regStep,
          platform_rules, List.find?, c1Query, c1Candidate, min_def]
      have hh : compute_historical_score c1Candidate = 1/2 := by
        simp [compute_historical_score, c1Candidate]
      rw [hg, hr, hh]
      norm_num [weights_semantic, weights_graph, weights_rules,
        weights_historical]
    rw [show recommend c1Pipeline c1Query [c1Candidate] 10 none =
        some [baseRecommendation (some (-1), -1) c1Query none c1Candidate] by
      simp [recommend, hqe, hsc, seqOpt, sortRecs, List.insertionSort,
        List.orderedInsert]]
    simp [hscore]
  · norm_num

/-- C10: without an embedding pipeline, or without a query description,
`recommend` never computes a semantic score: the result is independent of
any precomputed embedding in the query spec, the `semantic` entry of the
score breakdown is absent, every final score equals
`0.3·graph + 0.2·rules + 0.1·historical`, and hence is at most 0.6. -/
theorem C10_semantic_disabled :
    ∀ (pipeline : Option (String → List ℚ)) (q : QuerySpec)
      (candidates : List Scenario) (k : ℕ)
      (gd : Option (String → Option GraphData)),
      (pipeline = none ∨ q.description = none) →
      (∀ f, gd = some f → ∀ (id : String) (g : GraphData) (l : ℚ),
        f id = some g → g.shortest_path_length = some l → 0 ≤ l) →
      (∀ e, recommend pipeline { q with embedding := e } candidates k gd =
        recommend pipeline q candidates k gd) ∧
      ∃ r, recommend pipeline q candidates k gd = some r ∧
        ∀ x ∈ r, x.scores.semantic = none ∧
          x.score = (weights_graph : ℝ) * (x.scores.graph : ℝ) +
            (weights_rules : ℝ) * (x.scores.rules : ℝ) +
            (weights_historical : ℝ) * (x.scores.historical : ℝ) ∧
          x.score ≤ 3/5 := by
  intro pipeline q candidates k gd hnone hgd
  constructor
  · intro e
    cases q
    rfl
  · have hqe : queryEmbedding pipeline q = none := by
      rcases hnone with rfl | hd
      · rfl
      · rcases pipeline with _ | enc
        · rfl
        · simp [queryEmbedding, hd]
    refine ⟨(sortRecs (candidates.map
      (baseRecommendation (none, 0) q gd))).take k, ?_, ?_⟩
    · unfold recommend
      rw [hqe]
      rw [show candidates.map (scoreCandidate none q gd) =
        candidates.map (fun c => some (baseRecommendation (none, 0) q gd c))
        from rfl]
      rw [seqOpt_map_some]
      rfl
    · intro x hx
      have hx2 : x ∈ candidates.map (baseRecommendation (none, 0) q gd) :=
        mem_sortRecs.mp ((List.take_sublist _ _).subset hx)
      obtain ⟨c, hcmem, rfl⟩ := List.mem_map.mp hx2
      have hg := compute_graph_proximity_mem q.components c.target_components
        q.systems c.target_systems _ (gd_pointwise hgd c)
      have hr := compute_rules_score_mem q c
      have hh := compute_historical_score_mem c
      refine ⟨rfl, ?_, ?_⟩
      · rw [baseRecommendation_score_eq, baseRecommendation_graph_eq,
          baseRecommendation_rules_eq, baseRecommendation_historical_eq]
        norm_num [weights_semantic]
      · rw [baseRecommendation_score_eq]
        have hg1 : ((compute_graph_proximity q.components c.target_components
            q.systems c.target_systems (gdLookup gd c.scenario_id) : ℚ) : ℝ) ≤
            1 := by exact_mod_cast hg.2
        have hr1 : (((compute_rules_score q c).1 : ℚ) : ℝ) ≤ 1 := by
          exact_mod_cast hr.2
        have hh1 : ((compute_historical_score c : ℚ) : ℝ) ≤ 1 := by
          exact_mod_cast hh.2
        have hg0 : (0 : ℝ) ≤ ((compute_graph_proximity q.components
            c.target_components q.systems c.target_systems
            (gdLookup gd c.scenario_id) : ℚ) : ℝ) := by exact_mod_cast hg.1
        have hr0 : (0 : ℝ) ≤ (((compute_rules_score q c).1 : ℚ) : ℝ) := by
          exact_mod_cast hr.1
        have hh0 : (0 : ℝ) ≤ ((compute_historical_score c : ℚ) : ℝ) := by
          exact_mod_cast hh.1
        unfold weights_semantic weights_graph weights_rules weights_historical
        push_cast
        nlinarith

/-- C10 witness: the theorem instantiated at a one-candidate batch with no
pipeline. -/
theorem C10_semantic_disabled_witness :
    (∀ e, recommend none { ({} : QuerySpec) with embedding := e }
      [{ scenario_id := "w10" }] 3 none =
      recommend none {} [{ scenario_id := "w10" }] 3 none) ∧
    ∃ r, recommend none {} [{ scenario_id := "w10" }] 3 none = some r ∧
      ∀ x ∈ r, x.scores.semantic = none ∧
        x.score = (weights_graph : ℝ) * (x.scores.graph : ℝ) +
          (weights_rules : ℝ) * (x.scores.rules : ℝ) +
          (weights_historical : ℝ) * (x.scores.historical : ℝ) ∧
        x.score ≤ 3/5 :=
  C10_semantic_disabled none {} [{ scenario_id := "w10" }] 3 none
    (Or.inl rfl) (by simp)

/-- C7 (amended): `diversity_reranking` with `len(candidates) ≤ k`
returns the candidate list unchanged; and for `1 ≤ k`, an input already
ordered by descending relevance, and well-formed embeddings (one per
candidate, uniform dimension, non-zero norm so every cosine is defined),
`lambda_param = 1.0` reproduces the pure relevance order: the first
`min(k, n)` candidates in input order. -/
theorem C7_passthrough_and_relevance :
    (∀ (α : Type) (cands : List (α × ℝ)) (embs : List (List ℚ)) (lam : ℝ)
      (k : ℕ), cands.length ≤ k →
      diversity_reranking cands embs lam k = some cands) ∧
    (∀ (α : Type) (cands : List (α × ℝ)) (embs : List (List ℚ)) (k : ℕ),
      1 ≤ k →
      List.Sorted (fun a b : α × ℝ => b.2 ≤ a.2) cands →
      embs.length = cands.length →
      sameLength embs = true →
      (∀ e ∈ embs, normSq e ≠ 0) →
      diversity_reranking cands embs 1 k = some (cands.take k)) := by
  constructor
  · intro α cands embs lam k h
    unfold diversity_reranking
    rw [if_pos h, List.take_of_length_le h]
  · intro α cands embs k hk hsort hlen hdim hnz
    by_cases hnk : cands.length ≤ k
    · unfold diversity_reranking
      rw [if_pos hnk]
    · push_neg at hnk
      cases hc : cands with
      | nil =>
        rw [hc] at hnk
        simp at hnk
      | cons c0 rest =>
        subst hc
        unfold diversity_reranking
        rw [if_neg (not_le.mpr hnk)]
        simp only []
        rw [show [c0] = (c0 :: rest).take 1 from rfl,
          show [0] = List.range 1 from rfl]
        exact mmrLoop_lam_one (c0 :: rest) embs k hsort hlen hdim hnz hnk
          (c0 :: rest).length 1 (le_refl 1) hk (by omega)

/-- C7 counterexample: with `k = 0` and two candidates (sorted by
descending relevance, well-formed embeddings), `diversity_reranking`
returns the first candidate, not the first `k = 0` candidates: the loop
starts by unconditionally selecting `candidates[0]` before consulting
`k`. -/
theorem C7_counterexample :
    diversity_reranking [((0 : ℕ), (1 : ℝ)), (1, 1/2)] [[1], [1]] 1 0 =
      some [((0 : ℕ), (1 : ℝ))] ∧
    List.Sorted (fun a b : ℕ × ℝ => b.2 ≤ a.2)
      [((0 : ℕ), (1 : ℝ)), (1, 1/2)] ∧
    some [((0 : ℕ), (1 : ℝ))] ≠
      some (List.take 0 [((0 : ℕ), (1 : ℝ)), (1, 1/2)]) := by
  refine ⟨?_, ?_, by simp⟩
  · simp [diversity_reranking, mmrLoop]
  · simp [List.sorted_cons]
    norm_num

/-- C7 witness: identity passthrough at a one-candidate list with `k = 3`,
and pure relevance order at two sorted candidates with `λ = 1`, `k = 1`. -/
theorem C7_passthrough_and_relevance_witness :
    diversity_reranking [((5 : ℕ), (1 : ℝ))] [[1]] (1/2) 3 =
      some [((5 : ℕ), (1 : ℝ))] ∧
    diversity_reranking [((0 : ℕ), (1 : ℝ)), (1, 1/2)] [[1], [1]] 1 1 =
      some (List.take 1 [((0 : ℕ), (1 : ℝ)), (1, 1/2)]) :=
  ⟨C7_passthrough_and_relevance.1 ℕ [((5 : ℕ), (1 : ℝ))] [[1]] (1/2) 3
      (by norm_num),
   C7_passthrough_and_relevance.2 ℕ [((0 : ℕ), (1 : ℝ)), (1, 1/2)] [[1], [1]] 1
      (le_refl 1)
      (by simp [List.sorted_cons]; norm_num)
      (by norm_num)
      (by decide)
      (by
        intro e he
        simp at he
        subst he
        norm_num [normSq, dot])⟩

end DVT
